import Mathlib

/-
Shallow embedding of `src/sort.py` (pallagip/xmltocsv).

Python strings are modelled as `List Char`, Python `datetime.datetime`
values as a record of calendar fields plus an optional fixed UTC offset in
minutes, and exceptions as `Option`/`Except`.  `datetime.datetime.fromisoformat`
is modelled after the CPython (<= 3.10) grammar restricted to whole-second
precision and `±HH:MM` offsets, which covers every string shape this script
can feed it.
-/

/-- Python strings are sequences of characters. -/
abbrev PyStr := List Char

/-- Coerce a Lean string literal to the Python-string model. -/
def pyStr (s : String) : PyStr := s.data

/-- Numeric value of a decimal digit character. -/
def dval (c : Char) : Nat := c.toNat - 48

/-- Decimal digit character for `n % 10`. -/
def dchar (n : Nat) : Char := Char.ofNat (48 + n % 10)

/-- Model of Python `pat in s` for the two-character patterns, e.g. `' +' in s`. -/
def hasPair (a b : Char) : List Char → Bool
  | [] => false
  | [_] => false
  | x :: y :: rest => (x == a && y == b) || hasPair a b (y :: rest)

/-- Model of Python `s.split(pat, 1)` for a two-character pattern that occurs in `s`:
split at the first occurrence, dropping the pattern. -/
def splitPairOnce (a b : Char) : List Char → Option (List Char × List Char)
  | [] => none
  | [_] => none
  | x :: y :: rest =>
    if x == a && y == b then some ([], rest)
    else
      match splitPairOnce a b (y :: rest) with
      | some (l, r) => some (x :: l, r)
      | none => none

/-- Model of Python `s.split(sep)` (split at every occurrence, keeping empty parts). -/
def splitAll (sep : Char) : List Char → List (List Char)
  | [] => [[]]
  | c :: rest =>
    let r := splitAll sep rest
    if c == sep then [] :: r
    else
      match r with
      | h :: t => (c :: h) :: t
      | [] => [[c]]

/-- Model of Python `s.split(sep, 1)`: split at the first occurrence of `sep`. -/
def splitCharOnce (sep : Char) : List Char → Option (List Char × List Char)
  | [] => none
  | c :: rest =>
    if c == sep then some ([], rest)
    else
      match splitCharOnce sep rest with
      | some (l, r) => some (c :: l, r)
      | none => none

/-- Model of Python `s.rsplit(sep, 1)`: split at the last occurrence of `sep`. -/
def rsplitCharOnce (sep : Char) (s : List Char) : Option (List Char × List Char) :=
  match splitCharOnce sep s.reverse with
  | some (l, r) => some (r.reverse, l.reverse)
  | none => none

/-- Accumulate the value of a digit string; fails on a non-digit character. -/
def digitsValAux : List Char → Nat → Option Nat
  | [], acc => some acc
  | c :: rest, acc =>
    if c.isDigit then digitsValAux rest (acc * 10 + dval c) else none

/-- Value of a nonempty all-digit string. -/
def digitsVal : List Char → Option Nat
  | [] => none
  | c :: rest => digitsValAux (c :: rest) 0

/-- Model of Python `int(s)` restricted to an optional sign followed by digits
(whitespace stripping and underscore separators never arise in this pipeline). -/
def pyInt : PyStr → Option Int
  | [] => none
  | c :: rest =>
    if c == '+' then (digitsVal rest).map Int.ofNat
    else if c == '-' then (digitsVal rest).map (fun n => -(n : Int))
    else (digitsVal (c :: rest)).map Int.ofNat

/-- Gregorian leap-year test, as in Python's `calendar`/`datetime`. -/
def isLeap (y : Nat) : Bool :=
  y % 4 == 0 && (y % 100 != 0 || y % 400 == 0)

/-- Length of a month, as validated by `datetime.datetime`. -/
def daysInMonth (y m : Nat) : Nat :=
  if m == 2 then (if isLeap y then 29 else 28)
  else if m == 4 || m == 6 || m == 9 || m == 11 then 30
  else 31

/-- Days in the months strictly before month `m` of year `y`. -/
def daysBeforeMonth (y m : Nat) : Nat :=
  (((List.range 12).map (fun i => daysInMonth y (i + 1))).take (m - 1)).sum

/-- Day count of a calendar date from the proleptic-Gregorian epoch, used to
linearize datetime comparison. -/
def daysFromCivil (y m d : Nat) : Nat :=
  (y - 1) * 365 + (y - 1) / 4 - (y - 1) / 100 + (y - 1) / 400 + daysBeforeMonth y m + (d - 1)

/-- Model of a Python `datetime.datetime`: calendar fields plus an optional fixed
UTC offset in minutes (`none` models a naive datetime). -/
structure PyDateTime where
  year : Nat
  month : Nat
  day : Nat
  hour : Nat
  minute : Nat
  second : Nat
  tz : Option Int
deriving DecidableEq, Repr

/-- Linearization of a datetime to a count of UTC seconds, used for comparisons;
for naive datetimes the offset contribution is zero, matching Python's
field-lexicographic naive comparison on valid dates. -/
def PyDateTime.instant (dt : PyDateTime) : Int :=
  (daysFromCivil dt.year dt.month dt.day : Int) * 86400
    + dt.hour * 3600 + dt.minute * 60 + dt.second - (dt.tz.getD 0) * 60

/-- Model of `datetime.timezone(timedelta(minutes=off))`: the offset must be
strictly between -24h and +24h. -/
def mkTimezone (off : Int) : Option Int :=
  if -1440 < off ∧ off < 1440 then some off else none

/-- Model of the `datetime.datetime` constructor's range validation. -/
def mkDatetime (y mo d h mi s : Int) (tz : Option Int) : Option PyDateTime :=
  if 1 ≤ y ∧ y ≤ 9999 ∧ 1 ≤ mo ∧ mo ≤ 12 ∧ 1 ≤ d ∧ d ≤ (daysInMonth y.toNat mo.toNat : Int)
      ∧ 0 ≤ h ∧ h ≤ 23 ∧ 0 ≤ mi ∧ mi ≤ 59 ∧ 0 ≤ s ∧ s ≤ 59 then
    some ⟨y.toNat, mo.toNat, d.toNat, h.toNat, mi.toNat, s.toNat, tz⟩
  else none

/-- Parse a two-digit field. -/
def parse2 (a b : Char) : Option Nat :=
  if a.isDigit && b.isDigit then some (dval a * 10 + dval b) else none

/-- Parse a four-digit field. -/
def parse4 (a b c d : Char) : Option Nat :=
  if a.isDigit && b.isDigit && c.isDigit && d.isDigit then
    some (((dval a * 10 + dval b) * 10 + dval c) * 10 + dval d)
  else none

/-- Parse the `HH[:MM[:SS]]` portion after the separator, returning the fields and
the unconsumed remainder (the offset part), as CPython's isoformat time parser
does at whole-second precision. -/
def parseTime : List Char → Option (Nat × Nat × Nat × List Char)
  | h1 :: h2 :: rest1 =>
    match parse2 h1 h2 with
    | none => none
    | some h =>
      match rest1 with
      | c1 :: m1 :: m2 :: rest2 =>
        if c1 == ':' then
          match parse2 m1 m2 with
          | none => none
          | some mi =>
            match rest2 with
            | c2 :: s1 :: s2 :: rest3 =>
              if c2 == ':' then
                match parse2 s1 s2 with
                | none => none
                | some s => some (h, mi, s, rest3)
              else some (h, mi, 0, rest2)
            | _ => some (h, mi, 0, rest2)
        else some (h, 0, 0, rest1)
      | _ => some (h, 0, 0, rest1)
  | _ => none

/-- Parse the trailing `±HH:MM` offset; the empty remainder yields a naive result. -/
def parseTzPart (tzRest : List Char) : Option (Option Int) :=
  match tzRest with
  | [] => some none
  | sign :: o1 :: o2 :: colon :: o3 :: o4 :: [] =>
    if (sign == '+' || sign == '-') && colon == ':' then
      match parse2 o1 o2, parse2 o3 o4 with
      | some oh, some om =>
        match mkTimezone ((if sign == '-' then -1 else 1) * (oh * 60 + om)) with
        | some off => some (some off)
        | none => none
      | _, _ => none
    else none
  | _ => none

/-- Model of `datetime.datetime.fromisoformat` (CPython <= 3.10 grammar:
`YYYY-MM-DD[*HH[:MM[:SS]][±HH:MM]]`, any single separator character,
whole-second precision). -/
def fromisoformat (s : PyStr) : Option PyDateTime :=
  match s with
  | y1 :: y2 :: y3 :: y4 :: dash1 :: m1 :: m2 :: dash2 :: d1 :: d2 :: rest =>
    if dash1 == '-' && dash2 == '-' then
      match parse4 y1 y2 y3 y4, parse2 m1 m2, parse2 d1 d2 with
      | some y, some mo, some d =>
        match rest with
        | [] => mkDatetime y mo d 0 0 0 none
        | _sep :: timeRest =>
          match parseTime timeRest with
          | none => none
          | some (h, mi, sec, tzRest) =>
            match parseTzPart tzRest with
            | none => none
            | some tz => mkDatetime y mo d h mi sec tz
      | _, _, _ => none
    else none
  | _ => none

/-- Manual branch of `parse_date`: the `"YYYY-MM-DD HH:MM:SS ±ZZZZ"` path taken
when the string contains `' +'` or `' -'` (sort.py lines 32-57); `none` models
both a swallowed exception and the fall-through when the offset is short. -/
def parse_date_manual (s : PyStr) : Option PyDateTime :=
  match (if hasPair ' ' '+' s then
           (splitPairOnce ' ' '+' s).map (fun p => (p.1, p.2, true))
         else
           (splitPairOnce ' ' '-' s).map (fun p => (p.1, p.2, false))) with
  | none => none
  | some (main, tz_part, positive) =>
    match splitAll ' ' main with
    | [date_part, time_part] =>
      match splitAll '-' date_part, splitAll ':' time_part with
      | [ys, ms, ds], [hs, mis, ss] =>
        match pyInt ys, pyInt ms, pyInt ds, pyInt hs, pyInt mis, pyInt ss with
        | some y, some mo, some d, some h, some mi, some sec =>
          if tz_part.length ≥ 4 then
            match pyInt (tz_part.take 2), pyInt ((tz_part.take 4).drop 2) with
            | some tzh, some tzm =>
              match mkTimezone ((if positive then 1 else -1) * (tzh * 60 + tzm)) with
              | some off => mkDatetime y mo d h mi sec (some off)
              | none => none
            | _, _ => none
          else none
        | _, _, _, _, _, _ => none
      | _, _ => none
    | _ => none

/-- The `"YYYY-MM-DDTHH:MM:SS±ZZZZ"` branch of `parse_date` (sort.py lines 66-84):
reconstruct a colon-bearing offset and retry `fromisoformat`. -/
def parse_date_tpath (s : PyStr) : Option PyDateTime :=
  match splitCharOnce 'T' s with
  | none => none
  | some (date_part, rest) =>
    if rest.contains '+' then
      match splitCharOnce '+' rest with
      | none => none
      | some (time_part, tz_part) =>
        if tz_part.length == 4 then
          fromisoformat (date_part ++ 'T' :: time_part ++ '+' :: tz_part.take 2 ++ ':' :: tz_part.drop 2)
        else none
    else if rest.contains '-' then
      match rsplitCharOnce '-' rest with
      | none => none
      | some (time_base, tz_part) =>
        if tz_part.length == 4 then
          fromisoformat (date_part ++ 'T' :: time_base ++ '-' :: tz_part.take 2 ++ ':' :: tz_part.drop 2)
        else none
    else none

/-- Replace every `'T'` by a space, as in the final fallback of `parse_date`. -/
def replaceT (s : PyStr) : PyStr :=
  s.map (fun c => if c == 'T' then ' ' else c)

/-- Model of `parse_date` (sort.py lines 27-95); `none` models the final
`ValueError`. -/
def parse_date (s : PyStr) : Option PyDateTime :=
  match (if hasPair ' ' '+' s || hasPair ' ' '-' s then parse_date_manual s else none) with
  | some dt => some dt
  | none =>
    match fromisoformat s with
    | some dt => some dt
    | none =>
      match (if s.contains 'T' && (s.contains '+' || s.count '-' > 2) then
               parse_date_tpath s
             else none) with
      | some dt => some dt
      | none =>
        if s.contains 'T' then fromisoformat (replaceT s) else none

/-- Model of a Python `<=` comparison between datetimes: aware pairs compare by
UTC instant, naive pairs by fields, and a mixed pair raises `TypeError`. -/
def pyLeB (a b : PyDateTime) : Except String Bool :=
  match a.tz, b.tz with
  | some _, some _ => .ok (decide (a.instant ≤ b.instant))
  | none, none => .ok (decide (a.instant ≤ b.instant))
  | _, _ => .error "TypeError"

/-- Model of a chained Python comparison `lo <= dt <= hi` (short-circuiting). -/
def pyBetween (lo dt hi : PyDateTime) : Except String Bool := do
  let x ← pyLeB lo dt
  if x then pyLeB dt hi else pure false

/-- Model of Python's short-circuiting `or` over fallible boolean expressions. -/
def pyOr (x : Except String Bool) (y : Unit → Except String Bool) : Except String Bool := do
  let a ← x
  if a then pure true else y ()

/-- Fallback default used to read the window-boundary literals; every literal in
`is_in_date_range` parses, so it is never reached. -/
def dtDefault : PyDateTime := ⟨1, 1, 1, 0, 0, 0, none⟩

/-- Window-boundary literal, built exactly as `datetime.datetime.fromisoformat`
builds it in `is_in_date_range`. -/
def isoLit (s : String) : PyDateTime := (fromisoformat (pyStr s)).getD dtDefault

def range1_start : PyDateTime := isoLit "2024-02-12T12:00:00+01:00"
def range1_end : PyDateTime := isoLit "2024-02-22T04:00:00+01:00"
def range2_start : PyDateTime := isoLit "2025-05-21T12:00:00+02:00"
def range2_end : PyDateTime := isoLit "2025-06-04T17:00:00+02:00"
def range3_start : PyDateTime := isoLit "2025-06-04T23:00:00+02:00"
def range3_end : PyDateTime := isoLit "2025-06-11T21:00:00+02:00"
def range4_start : PyDateTime := isoLit "2025-06-11T23:00:00+02:00"
def range4_end : PyDateTime := isoLit "2025-06-18T22:00:00+02:00"
def range5_start : PyDateTime := isoLit "2025-06-19T01:00:00+02:00"
def range5_end : PyDateTime := isoLit "2025-06-25T22:00:00+02:00"

/-- The configured window list of this run variant, in source order. -/
def configuredRanges : List (PyDateTime × PyDateTime) :=
  [(range1_start, range1_end), (range2_start, range2_end), (range3_start, range3_end),
   (range4_start, range4_end), (range5_start, range5_end)]

/-- Model of `is_in_date_range` (sort.py lines 98-129). -/
def is_in_date_range (dt : PyDateTime) : Except String Bool :=
  pyOr (pyBetween range1_start dt range1_end) (fun _ =>
    pyOr (pyBetween range2_start dt range2_end) (fun _ =>
      pyOr (pyBetween range3_start dt range3_end) (fun _ =>
        pyOr (pyBetween range4_start dt range4_end) (fun _ =>
          pyBetween range5_start dt range5_end))))

/-- Two-digit zero-padded decimal rendering (all rendered fields are < 100). -/
def pad2 (n : Nat) : PyStr := [dchar (n / 10), dchar n]

/-- Four-digit zero-padded decimal rendering (all rendered years are < 10000). -/
def pad4 (n : Nat) : PyStr := [dchar (n / 1000), dchar (n / 100), dchar (n / 10), dchar n]

/-- Model of `dt.strftime("%Y-%m-%d %H:%M:%S%z")` (sort.py line 331): the
aggregate key; `%z` renders the empty string for a naive datetime. -/
def strftimeKey (dt : PyDateTime) : PyStr :=
  pad4 dt.year ++ '-' :: pad2 dt.month ++ '-' :: pad2 dt.day ++ ' ' :: pad2 dt.hour
    ++ ':' :: pad2 dt.minute ++ ':' :: pad2 dt.second
    ++ (match dt.tz with
        | none => []
        | some off =>
          (if off < 0 then '-' else '+') :: (pad2 (off.natAbs / 60) ++ pad2 (off.natAbs % 60)))

/-- One CSV record of the input file. -/
abbrev Row := List PyStr

def heartTag : PyStr := pyStr "HKQuantityTypeIdentifierHeartRate"
def glucoseTag : PyStr := pyStr "HKQuantityTypeIdentifierBloodGlucose"
def carbTag : PyStr := pyStr "HKQuantityTypeIdentifierDietaryCarbohydrates"
def insulinTag : PyStr := pyStr "HKQuantityTypeIdentifierInsulinDelivery"

/-- Model of Python `list.index`: position of the first occurrence. -/
def pyIndex (l : List PyStr) (x : PyStr) : Option Nat :=
  match l with
  | [] => none
  | h :: t => if h == x then some 0 else (pyIndex t x).map (· + 1)

/-- Resolved positions of the required header columns (sort.py lines 247-252). -/
structure Indices where
  type_idx : Nat
  value_idx : Nat
  date_idx : Nat
  start_date_idx : Nat
  source_name_idx : Nat
deriving DecidableEq, Repr

/-- Model of the header-resolution block: the first absent column name aborts the
run (`sys.exit(1)`), modelled as an error value. -/
def resolveIndices (header : List PyStr) : Except String Indices :=
  match pyIndex header (pyStr "type") with
  | none => .error "MissingColumn"
  | some ti =>
    match pyIndex header (pyStr "value") with
    | none => .error "MissingColumn"
    | some vi =>
      match pyIndex header (pyStr "creationDate") with
      | none => .error "MissingColumn"
      | some di =>
        match pyIndex header (pyStr "startDate") with
        | none => .error "MissingColumn"
        | some si =>
          match pyIndex header (pyStr "sourceName") with
          | none => .error "MissingColumn"
          | some sni => .ok ⟨ti, vi, di, si, sni⟩

/-- The guard bound `max(type_idx, value_idx, date_idx)` used by both passes
(sort.py lines 269 and 307). -/
def maxIdx3 (idx : Indices) : Nat :=
  max idx.type_idx (max idx.value_idx idx.date_idx)

/-- Increment the counter of column position `pos`, inserting it at the end on
first sight, as a Python insertion-ordered dict does. -/
def bump (counts : List (Nat × Nat)) (pos : Nat) : List (Nat × Nat) :=
  match counts with
  | [] => [(pos, 1)]
  | (p, c) :: rest => if p == pos then (p, c + 1) :: rest else (p, c) :: bump rest pos

/-- Scan the cells of one insulin row (sort.py lines 275-277): bump the counter of
every position whose cell is exactly `"1"` or `"2"`. -/
def scanCells (cells : List PyStr) (pos : Nat) (counts : List (Nat × Nat)) : List (Nat × Nat) :=
  match cells with
  | [] => counts
  | cell :: rest =>
    scanCells rest (pos + 1)
      (if cell == pyStr "1" || cell == pyStr "2" then bump counts pos else counts)

/-- Model of the detection pre-pass loop (sort.py lines 262-277). -/
def detectLoop (idx : Indices) : List Row → Nat → List (Nat × Nat) → List (Nat × Nat)
  | [], _, counts => counts
  | row :: rest, scanned, counts =>
    if scanned ≥ 500 then counts
    else if row.length ≤ maxIdx3 idx then detectLoop idx rest scanned counts
    else if row.getD idx.type_idx [] == insulinTag then
      detectLoop idx rest (scanned + 1) (scanCells row 0 counts)
    else detectLoop idx rest scanned counts

/-- Model of Python `max(iterable, key=f)` over dict keys in insertion order: the
first key attaining the maximal value (a later key replaces the best only when
strictly greater). -/
def pyMaxGo (bk bv : Nat) : List (Nat × Nat) → Nat
  | [] => bk
  | (k, v) :: rest => if v > bv then pyMaxGo k v rest else pyMaxGo bk bv rest

/-- Model of `max(insulin_positions, key=...)` guarded by the emptiness check
(sort.py lines 282-288). -/
def pyMaxKey : List (Nat × Nat) → Option Nat
  | [] => none
  | (k, v) :: rest => some (pyMaxGo k v rest)

/-- One aggregate slot of `data_by_time` (sort.py lines 335-341). -/
structure Entry where
  heart_rate : PyStr
  blood_glucose : PyStr
  insulin_dose : PyStr
  dietary_carbohydrates : PyStr
  source_device : PyStr
deriving DecidableEq, Repr

def Entry.empty : Entry := ⟨[], [], [], [], []⟩

instance : Inhabited Entry := ⟨Entry.empty⟩

/-- Lookup in the insertion-ordered aggregate map. -/
def lookupEntry (data : List (PyStr × Entry)) (k : PyStr) : Option Entry :=
  match data with
  | [] => none
  | (k', e) :: rest => if k' == k then some e else lookupEntry rest k

/-- Model of the `if date_str not in data_by_time` insertion (sort.py lines 334-341). -/
def ensureKey (data : List (PyStr × Entry)) (k : PyStr) : List (PyStr × Entry) :=
  if (lookupEntry data k).isSome then data else data ++ [(k, Entry.empty)]

/-- In-place update of the entry stored under `k`. -/
def updateEntry (data : List (PyStr × Entry)) (k : PyStr) (f : Entry → Entry) :
    List (PyStr × Entry) :=
  data.map (fun p => if p.1 == k then (p.1, f p.2) else p)

/-- Aggregate map plus the per-run summary counters. -/
structure RunState where
  data : List (PyStr × Entry)
  total_rows : Nat
  parsing_errors : Nat
  insulin_examined : Nat
  bolus_found : Nat
  blood_glucose_count : Nat
deriving DecidableEq, Repr

def RunState.init : RunState := ⟨[], 0, 0, 0, 0, 0⟩

/-- Model of one iteration of the main extraction loop (sort.py lines 305-366);
an unhandled Python exception is an `.error`. -/
def processRow (idx : Indices) (itIdx : Option Nat) (st : RunState) (row : Row) :
    Except String RunState :=
  let st := { st with total_rows := st.total_rows + 1 }
  if row.length ≤ maxIdx3 idx then .ok st
  else
    let data_type := row.getD idx.type_idx []
    let date_field_idx := if data_type == glucoseTag then idx.start_date_idx else idx.date_idx
    match row.get? date_field_idx with
    | none => .error "IndexError"
    | some ds =>
      match parse_date ds with
      | none => .ok { st with parsing_errors := st.parsing_errors + 1 }
      | some dt =>
        match is_in_date_range dt with
        | .error e => .error e
        | .ok false => .ok st
        | .ok true =>
          let key := strftimeKey dt
          let data := ensureKey st.data key
          let value := row.getD idx.value_idx []
          if data_type == heartTag then
            .ok { st with data := updateEntry data key (fun e => { e with heart_rate := value }) }
          else if data_type == glucoseTag then
            match row.get? idx.source_name_idx with
            | none => .error "IndexError"
            | some src =>
              .ok { st with
                    data := updateEntry data key
                      (fun e => { e with blood_glucose := value, source_device := src }),
                    blood_glucose_count := st.blood_glucose_count + 1 }
          else if data_type == carbTag then
            .ok { st with
                  data := updateEntry data key (fun e => { e with dietary_carbohydrates := value }) }
          else if data_type == insulinTag then
            let st := { st with insulin_examined := st.insulin_examined + 1, data := data }
            match itIdx with
            | none => .ok st
            | some it =>
              if it ≥ row.length then .ok st
              else if row.getD it [] == pyStr "2" then
                .ok { st with
                      bolus_found := st.bolus_found + 1,
                      data := updateEntry st.data key (fun e => { e with insulin_dose := value }) }
              else .ok st
          else .ok { st with data := data }

/-- The main extraction loop over all data rows. -/
def processRows (idx : Indices) (itIdx : Option Nat) : RunState → List Row → Except String RunState
  | st, [] => .ok st
  | st, row :: rest =>
    match processRow idx itIdx st row with
    | .error e => .error e
    | .ok st' => processRows idx itIdx st' rest

/-- Strict lexicographic order on strings by code point, as Python compares `str`. -/
def strLt : PyStr → PyStr → Bool
  | [], [] => false
  | [], _ :: _ => true
  | _ :: _, [] => false
  | a :: as_, b :: bs => a.toNat < b.toNat || (a == b && strLt as_ bs)

/-- Insert a key into an ascending list, before the first key it is less than. -/
def insertSorted (k : PyStr) : List PyStr → List PyStr
  | [] => [k]
  | x :: rest => if strLt k x then k :: x :: rest else x :: insertSorted k rest

/-- Model of Python `sorted` over the aggregate keys. -/
def sortKeys (l : List PyStr) : List PyStr := l.foldr insertSorted []

/-- The fixed output header (sort.py lines 372-379). -/
def outputFieldnames : List PyStr :=
  [pyStr "creationDate", pyStr "heart_rate", pyStr "blood_glucose", pyStr "insulin_dose",
   pyStr "dietary_carbohydrates", pyStr "source_device"]

/-- Observable outcome of a completed run: the output CSV as a list of cell rows,
whether the no-indicator warning was printed, and the printed summary counters. -/
structure RunResult where
  output : List (List PyStr)
  warned : Bool
  total_rows : Nat
  parsing_errors : Nat
  insulin_examined : Nat
  bolus_found : Nat
  blood_glucose_count : Nat
  output_count : Nat
deriving DecidableEq, Repr

/-- Model of `main` (sort.py lines 228-397) on the content of the input CSV,
given as a list of cell rows (header first): header resolution, the
indicator-detection pre-pass, the extraction pass, and the sorted writer.
File-system access and the wall-clock input-path selection are outside the
model; an `.error` is an aborted run (nonzero exit or unhandled exception). -/
def run (csv : List (List PyStr)) : Except String RunResult :=
  match csv with
  | [] => .error "StopIteration"
  | header :: rows =>
    match resolveIndices header with
    | .error e => .error e
    | .ok idx =>
      let counts := detectLoop idx rows 0 []
      let itIdx := pyMaxKey counts
      match processRows idx itIdx RunState.init rows with
      | .error e => .error e
      | .ok st =>
        let keys := sortKeys (st.data.map Prod.fst)
        let dataRows := keys.map (fun k =>
          match lookupEntry st.data k with
          | some e => [k, e.heart_rate, e.blood_glucose, e.insulin_dose,
                       e.dietary_carbohydrates, e.source_device]
          | none => [k])
        .ok { output := outputFieldnames :: dataRows,
              warned := counts.isEmpty,
              total_rows := st.total_rows,
              parsing_errors := st.parsing_errors,
              insulin_examined := st.insulin_examined,
              bolus_found := st.bolus_found,
              blood_glucose_count := st.blood_glucose_count,
              output_count := st.data.length }

/-- Decidable equality of modelled run outcomes. -/
instance {ε α : Type} [DecidableEq ε] [DecidableEq α] : DecidableEq (Except ε α) := fun a b =>
  match a, b with
  | .error e, .error f =>
    if h : e = f then isTrue (by rw [h])
    else isFalse (by intro hc; injection hc with h2; exact h h2)
  | .ok x, .ok y =>
    if h : x = y then isTrue (by rw [h])
    else isFalse (by intro hc; injection hc with h2; exact h h2)
  | .error _, .ok _ => isFalse (by intro hc; injection hc)
  | .ok _, .error _ => isFalse (by intro hc; injection hc)

/-- The header of the expected input files, used for concrete test runs. -/
def stdHeader : List PyStr :=
  [pyStr "type", pyStr "value", pyStr "creationDate", pyStr "startDate", pyStr "sourceName"]

def encB (y mo d h mi s : Nat) (sgn : Bool) (oh om : Nat) : PyStr :=
  pad4 y ++ '-' :: pad2 mo ++ '-' :: pad2 d ++ 'T' :: pad2 h ++ ':' :: pad2 mi ++ ':' :: pad2 s
    ++ (if sgn then '+' else '-') :: pad2 oh ++ ':' :: pad2 om

def encA (y mo d h mi s : Nat) (sgn : Bool) (oh om : Nat) : PyStr :=
  pad4 y ++ '-' :: pad2 mo ++ '-' :: pad2 d ++ ' ' :: pad2 h ++ ':' :: pad2 mi ++ ':' :: pad2 s
    ++ ' ' :: (if sgn then '+' else '-') :: (pad2 oh ++ pad2 om)

def encC (y mo d h mi s : Nat) (sgn : Bool) (oh om : Nat) : PyStr :=
  pad4 y ++ '-' :: pad2 mo ++ '-' :: pad2 d ++ 'T' :: pad2 h ++ ':' :: pad2 mi ++ ':' :: pad2 s
    ++ (if sgn then '+' else '-') :: (pad2 oh ++ pad2 om)

def encD (y mo d h mi s : Nat) (sgn : Bool) (oh om : Nat) : PyStr :=
  pad4 y ++ '-' :: pad2 mo ++ '-' :: pad2 d ++ ' ' :: pad2 h ++ ':' :: pad2 mi ++ ':' :: pad2 s
    ++ (if sgn then '+' else '-') :: pad2 oh ++ ':' :: pad2 om

def inAnyWindowSpec (dt : PyDateTime) : Prop :=
  ∃ r ∈ configuredRanges, r.1.instant ≤ dt.instant ∧ dt.instant ≤ r.2.instant

def yieldsKeyB (idx : Indices) (row : Row) (k : PyStr) : Bool :=
  if row.length ≤ maxIdx3 idx then false
  else
    match row.get? (if row.getD idx.type_idx [] == glucoseTag then idx.start_date_idx
                    else idx.date_idx) with
    | none => false
    | some ds =>
      match parse_date ds with
      | none => false
      | some dt =>
        match is_in_date_range dt with
        | .ok true => strftimeKey dt == k
        | _ => false

def detectCounts (idx : Indices) (rows : List Row) : List (Nat × Nat) :=
  detectLoop idx rows 0 []

def insSample (idx : Indices) : List Row → Nat → List Row
  | [], _ => []
  | row :: rest, scanned =>
    if scanned ≥ 500 then []
    else if row.length ≤ maxIdx3 idx then insSample idx rest scanned
    else if row.getD idx.type_idx [] == insulinTag then row :: insSample idx rest (scanned + 1)
    else insSample idx rest scanned

def lookupCount : List (Nat × Nat) → Nat → Nat
  | [], _ => 0
  | (p, c) :: rest, q => if p == q then c else lookupCount rest q

def hitB (row : Row) (q : Nat) : Bool :=
  match row.get? q with
  | some cell => cell == pyStr "1" || cell == pyStr "2"
  | none => false


/-- A record type outside the four extracted metrics, used for concrete runs. -/
def stepTag : PyStr := pyStr "HKQuantityTypeIdentifierStepCount"

/-- A creationDate string inside configured window 2. -/
def demoDate : PyStr := pyStr "2025-05-22 10:00:00 +0200"

/-- The aggregate key `demoDate` normalizes to. -/
def demoKey : PyStr := pyStr "2025-05-22 10:00:00+0200"

/-- A single data row of a type matching none of the four metric tags. -/
def demoC1Rows : List Row := [[stepTag, pyStr "100", demoDate, pyStr "x", pyStr "y"]]

/-- The aggregate state the main pass produces on `demoC1Rows`. -/
def demoC1State : RunState := ⟨[(demoKey, Entry.empty)], 1, 0, 0, 0, 0⟩

/-- A single insulin row whose indicator cell "2" sits at column 3. -/
def demoC5Rows : List Row := [[insulinTag, pyStr "0.5", demoDate, pyStr "2", pyStr "x"]]

/-- Two heart-rate rows denoting the same absolute instant under different UTC offsets. -/
def demoC9Input : List (List PyStr) :=
  [stdHeader,
   [heartTag, pyStr "71", pyStr "2025-05-22 12:00:00 +0200", pyStr "x", pyStr "y"],
   [heartTag, pyStr "72", pyStr "2025-05-22 10:00:00 +0000", pyStr "x", pyStr "y"]]

theorem dchar_toNat (n : Nat) : (dchar n).toNat = 48 + n % 10 := by
  have hv : (48 + n % 10).isValidChar := by left; omega
  simp [dchar, Char.ofNat, hv]
  rfl

theorem dchar_ne (n : Nat) (c : Char) (h : c.toNat < 48 ∨ 57 < c.toNat) : dchar n ≠ c := by
  intro he
  have := dchar_toNat n
  rw [he] at this
  have hm : n % 10 < 10 := Nat.mod_lt _ (by omega)
  omega

@[simp] theorem dchar_beq_space (n : Nat) : (dchar n == ' ') = false := by
  simp [dchar_ne n ' ' (by left; decide)]

@[simp] theorem space_beq_dchar (n : Nat) : (' ' == dchar n) = false := by
  have := dchar_ne n ' ' (by left; decide)
  simp [beq_eq_false_iff_ne]
  exact fun he => this he.symm

@[simp] theorem dchar_beq_plus (n : Nat) : (dchar n == '+') = false := by
  simp [dchar_ne n '+' (by left; decide)]

@[simp] theorem plus_beq_dchar (n : Nat) : ('+' == dchar n) = false := by
  have := dchar_ne n '+' (by left; decide)
  simp [beq_eq_false_iff_ne]
  exact fun he => this he.symm

@[simp] theorem dchar_beq_minus (n : Nat) : (dchar n == '-') = false := by
  simp [dchar_ne n '-' (by left; decide)]

@[simp] theorem minus_beq_dchar (n : Nat) : ('-' == dchar n) = false := by
  have := dchar_ne n '-' (by left; decide)
  simp [beq_eq_false_iff_ne]
  exact fun he => this he.symm

@[simp] theorem dchar_beq_colon (n : Nat) : (dchar n == ':') = false := by
  simp [dchar_ne n ':' (by right; decide)]

@[simp] theorem colon_beq_dchar (n : Nat) : (':' == dchar n) = false := by
  have := dchar_ne n ':' (by right; decide)
  simp [beq_eq_false_iff_ne]
  exact fun he => this he.symm

@[simp] theorem dchar_beq_bigT (n : Nat) : (dchar n == 'T') = false := by
  simp [dchar_ne n 'T' (by right; decide)]

@[simp] theorem bigT_beq_dchar (n : Nat) : ('T' == dchar n) = false := by
  have := dchar_ne n 'T' (by right; decide)
  simp [beq_eq_false_iff_ne]
  exact fun he => this he.symm

@[simp] theorem dchar_ne_space (n : Nat) : dchar n ≠ ' ' := dchar_ne n ' ' (by left; decide)
@[simp] theorem space_ne_dchar (n : Nat) : ' ' ≠ dchar n := (dchar_ne_space n).symm
@[simp] theorem dchar_ne_plus (n : Nat) : dchar n ≠ '+' := dchar_ne n '+' (by left; decide)
@[simp] theorem plus_ne_dchar (n : Nat) : '+' ≠ dchar n := (dchar_ne_plus n).symm
@[simp] theorem dchar_ne_minus (n : Nat) : dchar n ≠ '-' := dchar_ne n '-' (by left; decide)
@[simp] theorem minus_ne_dchar (n : Nat) : '-' ≠ dchar n := (dchar_ne_minus n).symm
@[simp] theorem dchar_ne_colon (n : Nat) : dchar n ≠ ':' := dchar_ne n ':' (by right; decide)
@[simp] theorem colon_ne_dchar (n : Nat) : ':' ≠ dchar n := (dchar_ne_colon n).symm
@[simp] theorem dchar_ne_bigT (n : Nat) : dchar n ≠ 'T' := dchar_ne n 'T' (by right; decide)
@[simp] theorem bigT_ne_dchar (n : Nat) : 'T' ≠ dchar n := (dchar_ne_bigT n).symm

@[simp] theorem dchar_isDigit (n : Nat) : (dchar n).isDigit = true := by
  have := dchar_toNat n
  have hm : n % 10 < 10 := Nat.mod_lt _ (by omega)
  have h0 : ('0' : Char).toNat = 48 := rfl
  have h9 : ('9' : Char).toNat = 57 := rfl
  simp [Char.isDigit]
  constructor
  · show ('0' : Char).toNat ≤ (dchar n).toNat
    omega
  · show (dchar n).toNat ≤ ('9' : Char).toNat
    omega

@[simp] theorem dval_dchar (n : Nat) : dval (dchar n) = n % 10 := by
  simp [dval, dchar_toNat]

theorem digits4_eq (y : Nat) (hy : y ≤ 9999) :
    (((y : Int) / 1000 % 10 * 10 + (y : Int) / 100 % 10) * 10 + (y : Int) / 10 % 10) * 10
      + (y : Int) % 10 = (y : Int) := by omega

theorem digits2_eq (n : Nat) (h : n ≤ 99) :
    (n : Int) / 10 % 10 * 10 + (n : Int) % 10 = (n : Int) := by omega

theorem daysInMonth_le (y m : Nat) : daysInMonth y m ≤ 31 := by
  unfold daysInMonth
  repeat' split
  all_goals omega

theorem encB_parses (y mo d h mi s : Nat) (sgn : Bool) (oh om : Nat)
    (hy1 : 1 ≤ y) (hy2 : y ≤ 9999) (hmo1 : 1 ≤ mo) (hmo2 : mo ≤ 12)
    (hd1 : 1 ≤ d) (hd2 : d ≤ daysInMonth y mo) (hh : h ≤ 23) (hmi : mi ≤ 59) (hs : s ≤ 59)
    (hoh : oh ≤ 23) (hom : om ≤ 59) :
    fromisoformat (encB y mo d h mi s sgn oh om) =
      some ⟨y, mo, d, h, mi, s, some ((if sgn then 1 else -1) * (oh * 60 + om))⟩ := by
  have hdm : (d : Int) ≤ (daysInMonth y mo : Int) := by exact_mod_cast hd2
  have hd99 : d ≤ 99 := by have := daysInMonth_le y mo; omega
  have hC2 : 1 ≤ y ∧ y ≤ 9999 ∧ 1 ≤ mo ∧ mo ≤ 12 ∧ 1 ≤ d ∧ d ≤ daysInMonth y mo ∧ h ≤ 23
      ∧ mi ≤ 59 ∧ s ≤ 59 := ⟨hy1, hy2, hmo1, hmo2, hd1, hd2, hh, hmi, hs⟩
  cases sgn
  all_goals
    simp [encB, pad4, pad2, fromisoformat, parse4, parse2, parseTime, parseTzPart, mkTimezone,
      mkDatetime, digits4_eq y hy2, digits2_eq mo (by omega), digits2_eq d (by omega),
      digits2_eq h (by omega), digits2_eq mi (by omega), digits2_eq s (by omega),
      digits2_eq oh (by omega), digits2_eq om (by omega)]
  all_goals
    rw [if_pos (by omega)]
  all_goals
    simp only [if_pos hC2]

theorem encA_parse_date (y mo d h mi s : Nat) (sgn : Bool) (oh om : Nat)
    (hy1 : 1 ≤ y) (hy2 : y ≤ 9999) (hmo1 : 1 ≤ mo) (hmo2 : mo ≤ 12)
    (hd1 : 1 ≤ d) (hd2 : d ≤ daysInMonth y mo) (hh : h ≤ 23) (hmi : mi ≤ 59) (hs : s ≤ 59)
    (hoh : oh ≤ 23) (hom : om ≤ 59) :
    parse_date (encA y mo d h mi s sgn oh om) =
      some ⟨y, mo, d, h, mi, s, some ((if sgn then 1 else -1) * (oh * 60 + om))⟩ := by
  have hdm : (d : Int) ≤ (daysInMonth y mo : Int) := by exact_mod_cast hd2
  have hd99 : d ≤ 99 := by have := daysInMonth_le y mo; omega
  have hC2 : 1 ≤ y ∧ y ≤ 9999 ∧ 1 ≤ mo ∧ mo ≤ 12 ∧ 1 ≤ d ∧ d ≤ daysInMonth y mo ∧ h ≤ 23
      ∧ mi ≤ 59 ∧ s ≤ 59 := ⟨hy1, hy2, hmo1, hmo2, hd1, hd2, hh, hmi, hs⟩
  cases sgn
  all_goals
    simp [encA, pad4, pad2, parse_date, parse_date_manual, hasPair, splitPairOnce, splitAll,
      pyInt, digitsVal, digitsValAux, mkTimezone, mkDatetime,
      digits4_eq y hy2, digits2_eq mo (by omega), digits2_eq d (by omega),
      digits2_eq h (by omega), digits2_eq mi (by omega), digits2_eq s (by omega),
      digits2_eq oh (by omega), digits2_eq om (by omega)]
  all_goals
    rw [if_pos (by omega)]
  all_goals
    simp only [if_pos hC2]

theorem encD_parses (y mo d h mi s : Nat) (sgn : Bool) (oh om : Nat)
    (hy1 : 1 ≤ y) (hy2 : y ≤ 9999) (hmo1 : 1 ≤ mo) (hmo2 : mo ≤ 12)
    (hd1 : 1 ≤ d) (hd2 : d ≤ daysInMonth y mo) (hh : h ≤ 23) (hmi : mi ≤ 59) (hs : s ≤ 59)
    (hoh : oh ≤ 23) (hom : om ≤ 59) :
    fromisoformat (encD y mo d h mi s sgn oh om) =
      some ⟨y, mo, d, h, mi, s, some ((if sgn then 1 else -1) * (oh * 60 + om))⟩ := by
  have hdm : (d : Int) ≤ (daysInMonth y mo : Int) := by exact_mod_cast hd2
  have hd99 : d ≤ 99 := by have := daysInMonth_le y mo; omega
  have hC2 : 1 ≤ y ∧ y ≤ 9999 ∧ 1 ≤ mo ∧ mo ≤ 12 ∧ 1 ≤ d ∧ d ≤ daysInMonth y mo ∧ h ≤ 23
      ∧ mi ≤ 59 ∧ s ≤ 59 := ⟨hy1, hy2, hmo1, hmo2, hd1, hd2, hh, hmi, hs⟩
  cases sgn
  all_goals
    simp [encD, pad4, pad2, fromisoformat, parse4, parse2, parseTime, parseTzPart, mkTimezone,
      mkDatetime, digits4_eq y hy2, digits2_eq mo (by omega), digits2_eq d (by omega),
      digits2_eq h (by omega), digits2_eq mi (by omega), digits2_eq s (by omega),
      digits2_eq oh (by omega), digits2_eq om (by omega)]
  all_goals
    rw [if_pos (by omega)]
  all_goals
    simp only [if_pos hC2]

theorem encB_no_guard (y mo d h mi s : Nat) (sgn : Bool) (oh om : Nat) :
    (hasPair ' ' '+' (encB y mo d h mi s sgn oh om)
      || hasPair ' ' '-' (encB y mo d h mi s sgn oh om)) = false := by
  cases sgn
  all_goals simp [encB, pad4, pad2, hasPair]

theorem encD_no_guard (y mo d h mi s : Nat) (sgn : Bool) (oh om : Nat) :
    (hasPair ' ' '+' (encD y mo d h mi s sgn oh om)
      || hasPair ' ' '-' (encD y mo d h mi s sgn oh om)) = false := by
  cases sgn
  all_goals simp [encD, pad4, pad2, hasPair]

theorem encB_parse_date (y mo d h mi s : Nat) (sgn : Bool) (oh om : Nat)
    (hy1 : 1 ≤ y) (hy2 : y ≤ 9999) (hmo1 : 1 ≤ mo) (hmo2 : mo ≤ 12)
    (hd1 : 1 ≤ d) (hd2 : d ≤ daysInMonth y mo) (hh : h ≤ 23) (hmi : mi ≤ 59) (hs : s ≤ 59)
    (hoh : oh ≤ 23) (hom : om ≤ 59) :
    parse_date (encB y mo d h mi s sgn oh om) =
      some ⟨y, mo, d, h, mi, s, some ((if sgn then 1 else -1) * (oh * 60 + om))⟩ := by
  unfold parse_date
  rw [encB_no_guard, encB_parses y mo d h mi s sgn oh om hy1 hy2 hmo1 hmo2 hd1 hd2 hh hmi hs hoh hom]
  rfl

theorem encD_parse_date (y mo d h mi s : Nat) (sgn : Bool) (oh om : Nat)
    (hy1 : 1 ≤ y) (hy2 : y ≤ 9999) (hmo1 : 1 ≤ mo) (hmo2 : mo ≤ 12)
    (hd1 : 1 ≤ d) (hd2 : d ≤ daysInMonth y mo) (hh : h ≤ 23) (hmi : mi ≤ 59) (hs : s ≤ 59)
    (hoh : oh ≤ 23) (hom : om ≤ 59) :
    parse_date (encD y mo d h mi s sgn oh om) =
      some ⟨y, mo, d, h, mi, s, some ((if sgn then 1 else -1) * (oh * 60 + om))⟩ := by
  unfold parse_date
  rw [encD_no_guard, encD_parses y mo d h mi s sgn oh om hy1 hy2 hmo1 hmo2 hd1 hd2 hh hmi hs hoh hom]
  rfl

theorem encC_parse_date (y mo d h mi s : Nat) (sgn : Bool) (oh om : Nat)
    (hy1 : 1 ≤ y) (hy2 : y ≤ 9999) (hmo1 : 1 ≤ mo) (hmo2 : mo ≤ 12)
    (hd1 : 1 ≤ d) (hd2 : d ≤ daysInMonth y mo) (hh : h ≤ 23) (hmi : mi ≤ 59) (hs : s ≤ 59)
    (hoh : oh ≤ 23) (hom : om ≤ 59) :
    parse_date (encC y mo d h mi s sgn oh om) =
      some ⟨y, mo, d, h, mi, s, some ((if sgn then 1 else -1) * (oh * 60 + om))⟩ := by
  have hdm : (d : Int) ≤ (daysInMonth y mo : Int) := by exact_mod_cast hd2
  have hd99 : d ≤ 99 := by have := daysInMonth_le y mo; omega
  have hC2 : 1 ≤ y ∧ y ≤ 9999 ∧ 1 ≤ mo ∧ mo ≤ 12 ∧ 1 ≤ d ∧ d ≤ daysInMonth y mo ∧ h ≤ 23
      ∧ mi ≤ 59 ∧ s ≤ 59 := ⟨hy1, hy2, hmo1, hmo2, hd1, hd2, hh, hmi, hs⟩
  cases sgn
  all_goals
    simp [encC, pad4, pad2, parse_date, parse_date_tpath, hasPair, splitCharOnce, rsplitCharOnce,
      fromisoformat, parse4, parse2, parseTime, parseTzPart, mkTimezone, mkDatetime,
      List.contains, List.elem, List.count, List.countP, List.countP.go,
      digits4_eq y hy2, digits2_eq mo (by omega), digits2_eq d (by omega),
      digits2_eq h (by omega), digits2_eq mi (by omega), digits2_eq s (by omega),
      digits2_eq oh (by omega), digits2_eq om (by omega)]
  all_goals
    rw [if_pos (by omega)]
  all_goals
    first
    | rfl
    | simp only [if_pos hC2]

theorem pyBetween_aware (lo dt hi : PyDateTime) (o1 o o2 : Int)
    (h1 : lo.tz = some o1) (h : dt.tz = some o) (h2 : hi.tz = some o2) :
    pyBetween lo dt hi =
      .ok (decide (lo.instant ≤ dt.instant) && decide (dt.instant ≤ hi.instant)) := by
  simp only [pyBetween, pyLeB, h1, h, h2, bind, Except.bind]
  cases hc : decide (lo.instant ≤ dt.instant) <;> simp [hc, pure, Except.pure]

theorem pyOr_ok_true_iff (x : Except String Bool) (y : Unit → Except String Bool) (a : Bool)
    (hx : x = .ok a) : (pyOr x y = .ok true) ↔ (a = true ∨ y () = .ok true) := by
  subst hx
  cases a <;> simp [pyOr, bind, Except.bind, pure, Except.pure]

theorem window_iff_aware_aux (dt : PyDateTime) (htz : dt.tz.isSome = true) :
    is_in_date_range dt = .ok true ↔ inAnyWindowSpec dt := by
  obtain ⟨o, ho⟩ := Option.isSome_iff_exists.mp htz
  have e1 : range1_start.tz = some 60 := by decide
  have e2 : range1_end.tz = some 60 := by decide
  have e3 : range2_start.tz = some 120 := by decide
  have e4 : range2_end.tz = some 120 := by decide
  have e5 : range3_start.tz = some 120 := by decide
  have e6 : range3_end.tz = some 120 := by decide
  have e7 : range4_start.tz = some 120 := by decide
  have e8 : range4_end.tz = some 120 := by decide
  have e9 : range5_start.tz = some 120 := by decide
  have e10 : range5_end.tz = some 120 := by decide
  rw [is_in_date_range,
    pyOr_ok_true_iff _ _ _ (pyBetween_aware _ _ _ _ _ _ e1 ho e2),
    pyOr_ok_true_iff _ _ _ (pyBetween_aware _ _ _ _ _ _ e3 ho e4),
    pyOr_ok_true_iff _ _ _ (pyBetween_aware _ _ _ _ _ _ e5 ho e6),
    pyOr_ok_true_iff _ _ _ (pyBetween_aware _ _ _ _ _ _ e7 ho e8),
    pyBetween_aware _ _ _ _ _ _ e9 ho e10]
  simp [inAnyWindowSpec, configuredRanges]

theorem window_bounds_aux : ∀ r ∈ configuredRanges,
    is_in_date_range r.1 = .ok true ∧ is_in_date_range r.2 = .ok true := by decide

theorem fst_updateEntry (d : List (PyStr × Entry)) (k : PyStr) (f : Entry → Entry) :
    (updateEntry d k f).map Prod.fst = d.map Prod.fst := by
  induction d with
  | nil => rfl
  | cons p rest ih =>
    simp only [updateEntry, List.map_cons] at *
    rw [ih]
    by_cases hp : p.1 == k <;> simp [hp]

theorem lookupEntry_isSome_iff (d : List (PyStr × Entry)) (k : PyStr) :
    (lookupEntry d k).isSome = true ↔ k ∈ d.map Prod.fst := by
  induction d with
  | nil => simp [lookupEntry]
  | cons p rest ih =>
    obtain ⟨k', e⟩ := p
    by_cases hp : k' = k
    · subst hp
      simp [lookupEntry]
    · have hb : (k' == k) = false := beq_eq_false_iff_ne.mpr hp
      rw [List.map_cons, List.mem_cons]
      rw [lookupEntry, if_neg (by simp [hb]), ih]
      constructor
      · exact Or.inr
      · rintro (he | hm)
        · exact absurd he.symm hp
        · exact hm

theorem mem_keys_ensureKey (d : List (PyStr × Entry)) (k k' : PyStr) :
    k' ∈ (ensureKey d k).map Prod.fst ↔ (k' ∈ d.map Prod.fst ∨ k' = k) := by
  unfold ensureKey
  by_cases h : (lookupEntry d k).isSome
  · rw [if_pos h]
    have hk : k ∈ d.map Prod.fst := (lookupEntry_isSome_iff d k).mp h
    constructor
    · exact Or.inl
    · rintro (hm | he)
      · exact hm
      · exact he ▸ hk
  · rw [if_neg h]
    simp

theorem mem_or_eq_comm (S : Prop) (x y : PyStr) : (S ∨ x = y) ↔ (S ∨ (y == x) = true) := by
  rw [beq_iff_eq]
  exact or_congr Iff.rfl ⟨Eq.symm, Eq.symm⟩

theorem processRow_keys (idx : Indices) (it : Option Nat) (st st' : RunState) (row : Row)
    (h : processRow idx it st row = .ok st') (k : PyStr) :
    k ∈ st'.data.map Prod.fst ↔ (k ∈ st.data.map Prod.fst ∨ yieldsKeyB idx row k = true) := by
  unfold processRow at h
  by_cases hlen : row.length ≤ maxIdx3 idx
  · rw [if_pos hlen] at h
    injection h with h
    subst h
    simp [yieldsKeyB, hlen]
  · rw [if_neg hlen] at h
    simp only [] at h
    rw [yieldsKeyB, if_neg hlen]
    cases hget : row.get? (if row.getD idx.type_idx [] == glucoseTag then idx.start_date_idx
        else idx.date_idx) with
    | none =>
      simp only [hget] at h
      exact absurd h (by simp)
    | some ds =>
      simp only [hget] at h
      cases hp : parse_date ds with
      | none =>
        simp only [hp] at h
        injection h with h
        subst h
        simp [hp]
      | some dt =>
        simp only [hp] at h
        cases hr : is_in_date_range dt with
        | error e =>
          simp only [hr] at h
          exact absurd h (by simp)
        | ok b =>
          simp only [hr] at h
          cases b with
          | false =>
            simp only [] at h
            injection h with h
            subst h
            simp [hp, hr]
          | true =>
            simp only [] at h
            simp only [hp, hr]
            split at h
            · injection h with h
              subst h
              rw [fst_updateEntry, mem_keys_ensureKey]
              exact mem_or_eq_comm _ _ _
            · split at h
              · cases hsrc : row.get? idx.source_name_idx with
                | none =>
                  simp only [hsrc] at h
                  exact absurd h (by simp)
                | some src =>
                  simp only [hsrc] at h
                  injection h with h
                  subst h
                  rw [fst_updateEntry, mem_keys_ensureKey]
                  exact mem_or_eq_comm _ _ _
              · split at h
                · injection h with h
                  subst h
                  rw [fst_updateEntry, mem_keys_ensureKey]
                  exact mem_or_eq_comm _ _ _
                · split at h
                  · cases hit : it with
                    | none =>
                      simp only [hit] at h
                      injection h with h
                      subst h
                      rw [mem_keys_ensureKey]
                      exact mem_or_eq_comm _ _ _
                    | some itv =>
                      simp only [hit] at h
                      split at h
                      · injection h with h
                        subst h
                        rw [mem_keys_ensureKey]
                        exact mem_or_eq_comm _ _ _
                      · split at h
                        · injection h with h
                          subst h
                          rw [fst_updateEntry, mem_keys_ensureKey]
                          exact mem_or_eq_comm _ _ _
                        · injection h with h
                          subst h
                          rw [mem_keys_ensureKey]
                          exact mem_or_eq_comm _ _ _
                  · injection h with h
                    subst h
                    rw [mem_keys_ensureKey]
                    exact mem_or_eq_comm _ _ _

theorem processRows_keys (idx : Indices) (it : Option Nat) (rows : List Row) :
    ∀ st st', processRows idx it st rows = .ok st' → ∀ k,
      (k ∈ st'.data.map Prod.fst ↔
        (k ∈ st.data.map Prod.fst ∨ ∃ row ∈ rows, yieldsKeyB idx row k = true)) := by
  induction rows with
  | nil =>
    intro st st' h k
    injection h with h
    subst h
    simp
  | cons row rest ih =>
    intro st st' h k
    rw [processRows] at h
    cases hstep : processRow idx it st row with
    | error e =>
      rw [hstep] at h
      exact absurd h (by simp)
    | ok st1 =>
      rw [hstep] at h
      simp only [] at h
      rw [ih st1 st' h k, processRow_keys idx it st st1 row hstep k]
      simp only [List.exists_mem_cons_iff]
      tauto

theorem detectLoop_eq_sample (idx : Indices) (rows : List Row) :
    ∀ scanned counts, detectLoop idx rows scanned counts =
      (insSample idx rows scanned).foldl (fun cs r => scanCells r 0 cs) counts := by
  induction rows with
  | nil => intro scanned counts; rfl
  | cons row rest ih =>
    intro scanned counts
    rw [detectLoop, insSample]
    by_cases h1 : scanned ≥ 500
    · rw [if_pos h1, if_pos h1]
      rfl
    · rw [if_neg h1, if_neg h1]
      by_cases h2 : row.length ≤ maxIdx3 idx
      · rw [if_pos h2, if_pos h2, ih]
      · rw [if_neg h2, if_neg h2]
        by_cases h3 : row.getD idx.type_idx [] == insulinTag
        · rw [if_pos h3, if_pos h3, ih]
          rfl
        · rw [if_neg h3, if_neg h3, ih]

theorem insSample_length (idx : Indices) (rows : List Row) :
    ∀ scanned, (insSample idx rows scanned).length ≤ 500 - scanned := by
  induction rows with
  | nil => intro scanned; simp [insSample]
  | cons row rest ih =>
    intro scanned
    rw [insSample]
    by_cases h1 : scanned ≥ 500
    · simp [h1]
    · rw [if_neg h1]
      by_cases h2 : row.length ≤ maxIdx3 idx
      · rw [if_pos h2]
        exact ih scanned
      · rw [if_neg h2]
        by_cases h3 : row.getD idx.type_idx [] == insulinTag
        · rw [if_pos h3]
          have := ih (scanned + 1)
          simp only [List.length_cons]
          omega
        · rw [if_neg h3]
          exact ih scanned

theorem lookupCount_bump (cs : List (Nat × Nat)) (p q : Nat) :
    lookupCount (bump cs p) q = lookupCount cs q + (if p = q then 1 else 0) := by
  induction cs with
  | nil =>
    by_cases h : p = q <;> simp [bump, lookupCount, h]
  | cons pc rest ih =>
    obtain ⟨p', c⟩ := pc
    by_cases h1 : p' = p
    · subst h1
      rw [bump, if_pos (by simp)]
      by_cases h2 : p' = q
      · subst h2
        simp [lookupCount]
      · have hb : (p' == q) = false := beq_eq_false_iff_ne.mpr h2
        simp [lookupCount, hb, h2]
    · have hb : (p' == p) = false := beq_eq_false_iff_ne.mpr h1
      rw [bump, if_neg (by simp [hb])]
      by_cases h2 : p' = q
      · subst h2
        simp [lookupCount]
        exact fun he => h1 he.symm
      · have hb2 : (p' == q) = false := beq_eq_false_iff_ne.mpr h2
        simp [lookupCount, hb2, ih]

theorem lookupCount_scanCells (cells : List PyStr) :
    ∀ pos cs q, lookupCount (scanCells cells pos cs) q =
      lookupCount cs q + (if pos ≤ q ∧ hitB cells (q - pos) = true then 1 else 0) := by
  induction cells with
  | nil =>
    intro pos cs q
    simp [scanCells, hitB]
  | cons cell rest ih =>
    intro pos cs q
    rw [scanCells]
    by_cases hq : q = pos
    · subst hq
      have hget : (cell :: rest).get? 0 = some cell := rfl
      by_cases hcell : (cell == pyStr "1" || cell == pyStr "2") = true
      · rw [if_pos hcell, ih, lookupCount_bump,
          if_neg (by omega : ¬ (q + 1 ≤ q ∧ hitB rest (q - (q + 1)) = true))]
        have hhit : hitB (cell :: rest) 0 = true := by rw [hitB, hget]; exact hcell
        simp [hhit]
      · rw [if_neg hcell, ih,
          if_neg (by omega : ¬ (q + 1 ≤ q ∧ hitB rest (q - (q + 1)) = true))]
        have hhit : hitB (cell :: rest) 0 = false := by
          rw [hitB, hget]
          simpa using hcell
        simp [hhit]
    · by_cases hlt : pos ≤ q
      · have hgt : pos + 1 ≤ q := by omega
        have harith : q - pos = (q - (pos + 1)) + 1 := by omega
        have hget : (cell :: rest).get? (q - pos) = rest.get? (q - (pos + 1)) := by
          rw [harith]
          simp
        by_cases hcell : (cell == pyStr "1" || cell == pyStr "2") = true
        · rw [if_pos hcell, ih, lookupCount_bump, if_neg (fun he => hq he.symm)]
          have : hitB (cell :: rest) (q - pos) = hitB rest (q - (pos + 1)) := by
            rw [hitB, hitB, hget]
          rw [this]
          by_cases hh : hitB rest (q - (pos + 1)) = true
          · rw [if_pos ⟨hgt, hh⟩, if_pos ⟨hlt, hh⟩]
          · rw [if_neg (fun hc => hh hc.2), if_neg (fun hc => hh hc.2)]
        · rw [if_neg hcell, ih]
          have : hitB (cell :: rest) (q - pos) = hitB rest (q - (pos + 1)) := by
            rw [hitB, hitB, hget]
          rw [this]
          by_cases hh : hitB rest (q - (pos + 1)) = true
          · rw [if_pos ⟨hgt, hh⟩, if_pos ⟨hlt, hh⟩]
          · rw [if_neg (fun hc => hh hc.2), if_neg (fun hc => hh hc.2)]
      · have h1 : ¬ (pos ≤ q ∧ hitB (cell :: rest) (q - pos) = true) := fun hc => hlt hc.1
        have h2 : ¬ (pos + 1 ≤ q ∧ hitB rest (q - (pos + 1)) = true) := by omega
        by_cases hcell : (cell == pyStr "1" || cell == pyStr "2") = true
        · rw [if_pos hcell, ih, lookupCount_bump, if_neg h2, if_neg h1,
            if_neg (by omega : ¬ pos = q)]
        · rw [if_neg hcell, ih, if_neg h2, if_neg h1]

theorem lookupCount_foldl (sample : List Row) :
    ∀ counts q, lookupCount (sample.foldl (fun cs r => scanCells r 0 cs) counts) q =
      lookupCount counts q + sample.countP (fun r => hitB r q) := by
  induction sample with
  | nil => intro counts q; simp
  | cons r rest ih =>
    intro counts q
    rw [List.foldl_cons, ih, List.countP_cons, lookupCount_scanCells]
    have : (0 ≤ q ∧ hitB r (q - 0) = true) ↔ hitB r q = true := by
      constructor
      · intro hc
        have := hc.2
        simpa using this
      · intro hc
        exact ⟨Nat.zero_le q, by simpa using hc⟩
    by_cases hh : hitB r q = true
    · rw [if_pos (this.mpr hh), if_pos hh]
      omega
    · rw [if_neg (fun hc => hh (this.mp hc)), if_neg hh]
      omega

theorem pyMaxGo_spec (l : List (Nat × Nat)) : ∀ bk bv,
    (pyMaxGo bk bv l = bk ∧ ∀ j, ∀ hj : j < l.length, l[j].2 ≤ bv) ∨
    (∃ i, ∃ hi : i < l.length, pyMaxGo bk bv l = l[i].1 ∧ bv < l[i].2 ∧
      (∀ j, ∀ hj : j < l.length, l[j].2 ≤ l[i].2) ∧
      (∀ j, ∀ hj : j < l.length, j < i → l[j].2 < l[i].2)) := by
  induction l with
  | nil =>
    intro bk bv
    left
    exact ⟨rfl, fun j hj => absurd hj (by simp)⟩
  | cons p rest ih =>
    intro bk bv
    obtain ⟨k0, v0⟩ := p
    rw [pyMaxGo]
    by_cases hv : v0 > bv
    · rw [if_pos hv]
      rcases ih k0 v0 with ⟨he, hall⟩ | ⟨i, hi, he, hbv, hall, hpre⟩
      · right
        refine ⟨0, by simp, by simpa using he, by simpa using hv, ?_, ?_⟩
        · intro j hj
          cases j with
          | zero => simp
          | succ j => simpa using hall j (by simpa using hj)
        · intro j hj hji
          exact absurd hji (by omega)
      · right
        refine ⟨i + 1, by simpa using hi, by simpa using he, ?_, ?_, ?_⟩
        · simp only [List.getElem_cons_succ]
          omega
        · intro j hj
          cases j with
          | zero =>
            simp only [List.getElem_cons_zero, List.getElem_cons_succ]
            omega
          | succ j =>
            simp only [List.getElem_cons_succ]
            exact hall j (by simpa using hj)
        · intro j hj hji
          cases j with
          | zero =>
            simp only [List.getElem_cons_zero, List.getElem_cons_succ]
            omega
          | succ j =>
            simp only [List.getElem_cons_succ]
            exact hpre j (by simpa using hj) (by omega)
    · rw [if_neg hv]
      rcases ih bk bv with ⟨he, hall⟩ | ⟨i, hi, he, hbv, hall, hpre⟩
      · left
        refine ⟨he, ?_⟩
        intro j hj
        cases j with
        | zero => simpa using Nat.le_of_not_lt hv
        | succ j => simpa using hall j (by simpa using hj)
      · right
        refine ⟨i + 1, by simpa using hi, by simpa using he, ?_, ?_, ?_⟩
        · simp only [List.getElem_cons_succ]
          omega
        · intro j hj
          cases j with
          | zero =>
            simp only [List.getElem_cons_zero, List.getElem_cons_succ]
            omega
          | succ j =>
            simp only [List.getElem_cons_succ]
            exact hall j (by simpa using hj)
        · intro j hj hji
          cases j with
          | zero =>
            simp only [List.getElem_cons_zero, List.getElem_cons_succ]
            omega
          | succ j =>
            simp only [List.getElem_cons_succ]
            exact hpre j (by simpa using hj) (by omega)

theorem pyMaxKey_spec (cs : List (Nat × Nat)) (k : Nat) (h : pyMaxKey cs = some k) :
    ∃ i, ∃ hi : i < cs.length, cs[i].1 = k ∧
      (∀ j, ∀ hj : j < cs.length, cs[j].2 ≤ cs[i].2) ∧
      (∀ j, ∀ hj : j < cs.length, j < i → cs[j].2 < cs[i].2) := by
  match cs, h with
  | (k0, v0) :: rest, h =>
    rw [pyMaxKey] at h
    injection h with h
    rcases pyMaxGo_spec rest k0 v0 with ⟨he, hall⟩ | ⟨i, hi, he, hbv, hall, hpre⟩
    · refine ⟨0, by simp, by simp [← h, he], ?_, ?_⟩
      · intro j hj
        cases j with
        | zero => simp
        | succ j => simpa using hall j (by simpa using hj)
      · intro j hj hji
        exact absurd hji (by omega)
    · refine ⟨i + 1, by simpa using hi, ?_, ?_, ?_⟩
      · simp only [List.getElem_cons_succ]
        rw [← h, he]
      · intro j hj
        cases j with
        | zero =>
          simp only [List.getElem_cons_zero, List.getElem_cons_succ]
          omega
        | succ j =>
          simp only [List.getElem_cons_succ]
          exact hall j (by simpa using hj)
      · intro j hj hji
        cases j with
        | zero =>
          simp only [List.getElem_cons_zero, List.getElem_cons_succ]
          omega
        | succ j =>
          simp only [List.getElem_cons_succ]
          exact hpre j (by simpa using hj) (by omega)

theorem blank_dose_updateEntry (d : List (PyStr × Entry)) (key : PyStr) (f : Entry → Entry)
    (hf : ∀ e, (f e).insulin_dose = e.insulin_dose)
    (hb : ∀ p ∈ d, p.2.insulin_dose = ([] : PyStr)) :
    ∀ p ∈ updateEntry d key f, p.2.insulin_dose = ([] : PyStr) := by
  intro p hp
  rw [updateEntry] at hp
  obtain ⟨q, hq, hgq⟩ := List.mem_map.mp hp
  by_cases hc : q.1 == key
  · rw [if_pos hc] at hgq
    rw [← hgq]
    rw [hf q.2]
    exact hb q hq
  · rw [if_neg hc] at hgq
    rw [← hgq]
    exact hb q hq

theorem blank_dose_ensureKey (d : List (PyStr × Entry)) (key : PyStr)
    (hb : ∀ p ∈ d, p.2.insulin_dose = ([] : PyStr)) :
    ∀ p ∈ ensureKey d key, p.2.insulin_dose = ([] : PyStr) := by
  intro p hp
  rw [ensureKey] at hp
  by_cases hc : (lookupEntry d key).isSome
  · rw [if_pos hc] at hp
    exact hb p hp
  · rw [if_neg hc] at hp
    rcases List.mem_append.mp hp with hm | hm
    · exact hb p hm
    · have : p = (key, Entry.empty) := by simpa using hm
      rw [this]
      rfl

theorem processRow_blank_dose (idx : Indices) (st st' : RunState) (row : Row)
    (h : processRow idx none st row = .ok st')
    (hb : ∀ p ∈ st.data, p.2.insulin_dose = ([] : PyStr)) :
    ∀ p ∈ st'.data, p.2.insulin_dose = ([] : PyStr) := by
  unfold processRow at h
  by_cases hlen : row.length ≤ maxIdx3 idx
  · rw [if_pos hlen] at h
    injection h with h
    subst h
    exact hb
  · rw [if_neg hlen] at h
    simp only [] at h
    cases hget : row.get? (if row.getD idx.type_idx [] == glucoseTag then idx.start_date_idx
        else idx.date_idx) with
    | none =>
      simp only [hget] at h
      exact absurd h (by simp)
    | some ds =>
      simp only [hget] at h
      cases hp : parse_date ds with
      | none =>
        simp only [hp] at h
        injection h with h
        subst h
        exact hb
      | some dt =>
        simp only [hp] at h
        cases hr : is_in_date_range dt with
        | error e =>
          simp only [hr] at h
          exact absurd h (by simp)
        | ok b =>
          simp only [hr] at h
          cases b with
          | false =>
            simp only [] at h
            injection h with h
            subst h
            exact hb
          | true =>
            simp only [] at h
            split at h
            · injection h with h
              subst h
              dsimp only
              refine blank_dose_updateEntry _ _ _ ?_ (blank_dose_ensureKey _ _ hb)
              intro e
              rfl
            · split at h
              · cases hsrc : row.get? idx.source_name_idx with
                | none =>
                  simp only [hsrc] at h
                  exact absurd h (by simp)
                | some src =>
                  simp only [hsrc] at h
                  injection h with h
                  subst h
                  dsimp only
                  refine blank_dose_updateEntry _ _ _ ?_ (blank_dose_ensureKey _ _ hb)
                  intro e
                  rfl
              · split at h
                · injection h with h
                  subst h
                  dsimp only
                  refine blank_dose_updateEntry _ _ _ ?_ (blank_dose_ensureKey _ _ hb)
                  intro e
                  rfl
                · split at h
                  · injection h with h
                    subst h
                    exact blank_dose_ensureKey _ _ hb
                  · injection h with h
                    subst h
                    exact blank_dose_ensureKey _ _ hb

theorem processRows_blank_dose (idx : Indices) (rows : List Row) :
    ∀ st st', processRows idx none st rows = .ok st' →
      (∀ p ∈ st.data, p.2.insulin_dose = ([] : PyStr)) →
      ∀ p ∈ st'.data, p.2.insulin_dose = ([] : PyStr) := by
  induction rows with
  | nil =>
    intro st st' h hb
    injection h with h
    subst h
    exact hb
  | cons row rest ih =>
    intro st st' h hb
    rw [processRows] at h
    cases hstep : processRow idx none st row with
    | error e =>
      rw [hstep] at h
      exact absurd h (by simp)
    | ok st1 =>
      rw [hstep] at h
      simp only [] at h
      exact ih st1 st' h (processRow_blank_dose idx st st1 row hstep hb)

theorem mkDatetime_tz (y mo d h mi s : Int) (tz : Option Int) (dt : PyDateTime)
    (hm : mkDatetime y mo d h mi s tz = some dt) : dt.tz = tz := by
  unfold mkDatetime at hm
  split at hm
  · injection hm with hm
    rw [← hm]
  · exact absurd hm (by simp)

theorem manual_aware (s : PyStr) (dt : PyDateTime) (h : parse_date_manual s = some dt) :
    ∃ o, dt.tz = some o := by
  unfold parse_date_manual at h
  repeat' split at h
  all_goals try exact absurd h (by simp)
  all_goals exact ⟨_, mkDatetime_tz _ _ _ _ _ _ _ _ h⟩

theorem parse2_digits (a b : Char) (v : Nat) (hp : parse2 a b = some v) :
    a.isDigit = true ∧ b.isDigit = true := by
  rw [parse2] at hp
  by_cases hb : (a.isDigit && b.isDigit) = true
  · exact ⟨(Bool.and_eq_true _ _ |>.mp hb).1, (Bool.and_eq_true _ _ |>.mp hb).2⟩
  · rw [if_neg hb] at hp
    exact absurd hp (by simp)

theorem parseTime_full (t : List Char) (h mi sec : Nat)
    (hp : parseTime t = some (h, mi, sec, [])) :
    ∀ c ∈ t, c.isDigit = true ∨ c = ':' := by
  match t with
  | [] => exact absurd hp (by simp [parseTime])
  | [_] => exact absurd hp (by simp [parseTime])
  | h1 :: h2 :: rest1 =>
    rw [parseTime] at hp
    cases hq1 : parse2 h1 h2 with
    | none => simp [hq1] at hp
    | some hv =>
      simp only [hq1] at hp
      have hd1 := parse2_digits h1 h2 hv hq1
      match rest1, hp with
      | [], hp =>
        intro c hc
        simp only [List.mem_cons, List.not_mem_nil, or_false] at hc
        rcases hc with rfl | rfl
        · exact Or.inl hd1.1
        · exact Or.inl hd1.2
      | [c1], hp => simp at hp
      | [c1, m1], hp => simp at hp
      | c1 :: m1 :: m2 :: rest2, hp =>
        simp only [] at hp
        by_cases hc1 : (c1 == ':') = true
        · rw [if_pos hc1] at hp
          cases hq2 : parse2 m1 m2 with
          | none => simp [hq2] at hp
          | some mv =>
            simp only [hq2] at hp
            have hd2 := parse2_digits m1 m2 mv hq2
            match rest2, hp with
            | [], hp =>
              intro c hc
              simp only [List.mem_cons, List.not_mem_nil, or_false] at hc
              rcases hc with rfl | rfl | rfl | rfl | rfl
              · exact Or.inl hd1.1
              · exact Or.inl hd1.2
              · exact Or.inr (by simpa using hc1)
              · exact Or.inl hd2.1
              · exact Or.inl hd2.2
            | [c2], hp => simp at hp
            | [c2, s1], hp => simp at hp
            | c2 :: s1 :: s2 :: rest3, hp =>
              simp only [] at hp
              by_cases hc2 : (c2 == ':') = true
              · rw [if_pos hc2] at hp
                cases hq3 : parse2 s1 s2 with
                | none => simp [hq3] at hp
                | some sv =>
                  simp only [hq3] at hp
                  have hd3 := parse2_digits s1 s2 sv hq3
                  injection hp with hp
                  have hrest : rest3 = [] := congrArg (fun x => x.2.2.2) hp
                  subst hrest
                  intro c hc
                  simp only [List.mem_cons, List.not_mem_nil, or_false] at hc
                  rcases hc with rfl | rfl | rfl | rfl | rfl | rfl | rfl | rfl
                  · exact Or.inl hd1.1
                  · exact Or.inl hd1.2
                  · exact Or.inr (by simpa using hc1)
                  · exact Or.inl hd2.1
                  · exact Or.inl hd2.2
                  · exact Or.inr (by simpa using hc2)
                  · exact Or.inl hd3.1
                  · exact Or.inl hd3.2
              · rw [if_neg hc2] at hp
                simp at hp
        · rw [if_neg hc1] at hp
          simp at hp

theorem parse4_digits (a b c d : Char) (v : Nat) (hp : parse4 a b c d = some v) :
    a.isDigit = true ∧ b.isDigit = true ∧ c.isDigit = true ∧ d.isDigit = true := by
  rw [parse4] at hp
  by_cases hb : (a.isDigit && b.isDigit && c.isDigit && d.isDigit) = true
  · simp only [Bool.and_eq_true] at hb
    exact ⟨hb.1.1.1, hb.1.1.2, hb.1.2, hb.2⟩
  · rw [if_neg hb] at hp
    exact absurd hp (by simp)

theorem parseTzPart_none (tzRest : List Char) (h : parseTzPart tzRest = some none) :
    tzRest = [] := by
  match tzRest with
  | [] => rfl
  | [a] => simp [parseTzPart] at h
  | [a, b] => simp [parseTzPart] at h
  | [a, b, c] => simp [parseTzPart] at h
  | [a, b, c, d] => simp [parseTzPart] at h
  | [a, b, c, d, e] => simp [parseTzPart] at h
  | [sign, o1, o2, colon, o3, o4] =>
    rw [parseTzPart] at h
    repeat' split at h
    all_goals simp at h
  | a :: b :: c :: d :: e :: f :: g :: rest => simp [parseTzPart] at h

theorem fromiso_naive_shape (s : PyStr) (dt : PyDateTime)
    (hf : fromisoformat s = some dt) (htz : dt.tz = none) :
    ∃ c10 rest, s = c10 ++ rest ∧ c10.length = 10 ∧
      (∀ c ∈ c10, c.isDigit = true ∨ c = '-') ∧
      (rest = [] ∨ ∃ sep t, rest = sep :: t ∧ ∀ c ∈ t, c.isDigit = true ∨ c = ':') := by
  match s with
  | [] => exact absurd hf (by simp [fromisoformat])
  | [a] => exact absurd hf (by simp [fromisoformat])
  | [a, b] => exact absurd hf (by simp [fromisoformat])
  | [a, b, c] => exact absurd hf (by simp [fromisoformat])
  | [a, b, c, d] => exact absurd hf (by simp [fromisoformat])
  | [a, b, c, d, e] => exact absurd hf (by simp [fromisoformat])
  | [a, b, c, d, e, f] => exact absurd hf (by simp [fromisoformat])
  | [a, b, c, d, e, f, g] => exact absurd hf (by simp [fromisoformat])
  | [a, b, c, d, e, f, g, h8] => exact absurd hf (by simp [fromisoformat])
  | [a, b, c, d, e, f, g, h8, h9] => exact absurd hf (by simp [fromisoformat])
  | y1 :: y2 :: y3 :: y4 :: dash1 :: m1 :: m2 :: dash2 :: d1 :: d2 :: rest =>
    rw [fromisoformat] at hf
    by_cases hdash : (dash1 == '-' && dash2 == '-') = true
    · rw [if_pos hdash] at hf
      have hdash1 : dash1 = '-' := by
        have := (Bool.and_eq_true _ _ |>.mp hdash).1
        simpa using this
      have hdash2 : dash2 = '-' := by
        have := (Bool.and_eq_true _ _ |>.mp hdash).2
        simpa using this
      cases hq4 : parse4 y1 y2 y3 y4 with
      | none => simp [hq4] at hf
      | some y =>
        cases hqm : parse2 m1 m2 with
        | none => simp [hq4, hqm] at hf
        | some mo =>
          cases hqd : parse2 d1 d2 with
          | none => simp [hq4, hqm, hqd] at hf
          | some d =>
            simp only [hq4, hqm, hqd] at hf
            have hy := parse4_digits y1 y2 y3 y4 y hq4
            have hm := parse2_digits m1 m2 mo hqm
            have hd := parse2_digits d1 d2 d hqd
            have hc10 : ∀ c ∈ [y1, y2, y3, y4, dash1, m1, m2, dash2, d1, d2],
                c.isDigit = true ∨ c = '-' := by
              intro c hc
              simp only [List.mem_cons, List.not_mem_nil, or_false] at hc
              rcases hc with rfl | rfl | rfl | rfl | rfl | rfl | rfl | rfl | rfl | rfl
              · exact Or.inl hy.1
              · exact Or.inl hy.2.1
              · exact Or.inl hy.2.2.1
              · exact Or.inl hy.2.2.2
              · exact Or.inr hdash1
              · exact Or.inl hm.1
              · exact Or.inl hm.2
              · exact Or.inr hdash2
              · exact Or.inl hd.1
              · exact Or.inl hd.2
            cases rest with
            | nil =>
              exact ⟨[y1, y2, y3, y4, dash1, m1, m2, dash2, d1, d2], [], by simp, rfl, hc10,
                Or.inl rfl⟩
            | cons sep timeRest =>
              cases hpt : parseTime timeRest with
              | none => simp [hpt] at hf
              | some res =>
                obtain ⟨hh, hmi, hsec, tzRest⟩ := res
                simp only [hpt] at hf
                cases hpz : parseTzPart tzRest with
                | none => simp [hpz] at hf
                | some tz =>
                  simp only [hpz] at hf
                  have htzv : tz = none := by
                    have := mkDatetime_tz _ _ _ _ _ _ _ _ hf
                    rw [htz] at this
                    exact this.symm
                  subst htzv
                  have hempty : tzRest = [] := parseTzPart_none tzRest hpz
                  subst hempty
                  have htchars := parseTime_full timeRest hh hmi hsec hpt
                  exact ⟨[y1, y2, y3, y4, dash1, m1, m2, dash2, d1, d2], sep :: timeRest,
                    by simp, rfl, hc10, Or.inr ⟨sep, timeRest, rfl, htchars⟩⟩
    · rw [if_neg hdash] at hf
      exact absurd hf (by simp)

theorem splitCharOnce_eq (sep : Char) (s : List Char) :
    ∀ l r, splitCharOnce sep s = some (l, r) → s = l ++ sep :: r ∧ sep ∉ l := by
  induction s with
  | nil => intro l r h; exact absurd h (by simp [splitCharOnce])
  | cons c rest ih =>
    intro l r h
    rw [splitCharOnce] at h
    by_cases hc : (c == sep) = true
    · rw [if_pos hc] at h
      simp only [Option.some.injEq, Prod.mk.injEq] at h
      obtain ⟨hl, hr⟩ := h
      subst hl
      subst hr
      have hcs : c = sep := by simpa using hc
      subst hcs
      exact ⟨rfl, by simp⟩
    · rw [if_neg hc] at h
      cases hs : splitCharOnce sep rest with
      | none => simp [hs] at h
      | some p =>
        obtain ⟨l2, r2⟩ := p
        simp only [hs, Option.some.injEq, Prod.mk.injEq] at h
        obtain ⟨hl, hr⟩ := h
        subst hl
        subst hr
        obtain ⟨he, hn⟩ := ih l2 r2 hs
        refine ⟨by rw [List.cons_append, he], ?_⟩
        intro hmem
        rcases List.mem_cons.mp hmem with he2 | hm
        · rw [he2] at hc
          simp at hc
        · exact hn hm

theorem rsplitCharOnce_eq (sep : Char) (s tb tz : List Char)
    (h : rsplitCharOnce sep s = some (tb, tz)) : s = tb ++ sep :: tz ∧ sep ∉ tz := by
  rw [rsplitCharOnce] at h
  cases hs : splitCharOnce sep s.reverse with
  | none => simp [hs] at h
  | some p =>
    obtain ⟨l, r⟩ := p
    simp only [hs, Option.some.injEq, Prod.mk.injEq] at h
    obtain ⟨htb, htz⟩ := h
    subst htb
    subst htz
    obtain ⟨he, hn⟩ := splitCharOnce_eq sep s.reverse l r hs
    constructor
    · have h2 := congrArg List.reverse he
      rw [List.reverse_reverse] at h2
      rw [h2]
      simp
    · intro hmem
      exact hn (by simpa using hmem)

theorem append_sep_align (x : Char) (a : List Char) :
    ∀ (b c d : List Char), a ++ x :: b = c ++ x :: d → x ∉ a → x ∉ c → a = c ∧ b = d := by
  induction a with
  | nil =>
    intro b c d h hxa hxc
    cases c with
    | nil =>
      simp only [List.nil_append] at h
      injection h with h1 h2
      exact ⟨rfl, h2⟩
    | cons c0 crest =>
      simp only [List.nil_append, List.cons_append] at h
      injection h with h1 h2
      subst h1
      exact absurd (List.mem_cons_self x crest) hxc
  | cons a0 arest ih =>
    intro b c d h hxa hxc
    cases c with
    | nil =>
      simp only [List.cons_append, List.nil_append] at h
      injection h with h1 h2
      subst h1
      exact absurd (List.mem_cons_self a0 arest) hxa
    | cons c0 crest =>
      simp only [List.cons_append] at h
      injection h with h1 h2
      have hxa2 : x ∉ arest := fun hm => hxa (List.mem_cons_of_mem a0 hm)
      have hxc2 : x ∉ crest := fun hm => hxc (List.mem_cons_of_mem c0 hm)
      obtain ⟨hac, hbd⟩ := ih b crest d h2 hxa2 hxc2
      exact ⟨by rw [h1, hac], hbd⟩

theorem bigT_not_digit : ('T' : Char).isDigit = false := by decide
theorem plus_not_digit : ('+' : Char).isDigit = false := by decide
theorem minus_not_digit : ('-' : Char).isDigit = false := by decide

theorem tpath_aware (s : PyStr) (dt : PyDateTime) (h : parse_date_tpath s = some dt) :
    ∃ o, dt.tz = some o := by
  cases hdt : dt.tz with
  | some o => exact ⟨o, rfl⟩
  | none =>
    exfalso
    unfold parse_date_tpath at h
    cases hsT : splitCharOnce 'T' s with
    | none => simp [hsT] at h
    | some p =>
      obtain ⟨dp, rest⟩ := p
      simp only [hsT] at h
      obtain ⟨hsplitT, hTdp⟩ := splitCharOnce_eq 'T' s dp rest hsT
      by_cases hplus : rest.contains '+'
      · rw [if_pos hplus] at h
        cases hsP : splitCharOnce '+' rest with
        | none => simp [hsP] at h
        | some q =>
          obtain ⟨tp, tz4⟩ := q
          simp only [hsP] at h
          by_cases hlen : (tz4.length == 4) = true
          · rw [if_pos hlen] at h
            obtain ⟨c10, rest2, hseq, hlen10, hc10, hrest2⟩ :=
              fromiso_naive_shape _ dt h hdt
            have hTmem : 'T' ∈ c10 ++ rest2 := by
              rw [← hseq]
              simp
            have hPmem : '+' ∈ c10 ++ rest2 := by
              rw [← hseq]
              have : '+' ∈ '+' :: tz4.take 2 ++ ':' :: tz4.drop 2 := List.mem_cons_self _ _
              simp
            have hnotc10 : ∀ x : Char, x.isDigit = false → x ≠ '-' → x ∉ c10 := by
              intro x hxd hxm hmem
              rcases hc10 x hmem with hd | hd
              · rw [hxd] at hd
                exact Bool.false_ne_true hd
              · exact hxm hd
            rcases hrest2 with rfl | ⟨sep, t, rfl, ht⟩
            · rw [List.append_nil] at hTmem
              exact hnotc10 'T' bigT_not_digit (by decide) hTmem
            · have hnott : ∀ x : Char, x.isDigit = false → x ≠ ':' → x ∉ t := by
                intro x hxd hxm hmem
                rcases ht x hmem with hd | hd
                · rw [hxd] at hd
                  exact Bool.false_ne_true hd
                · exact hxm hd
              have hTsep : 'T' = sep := by
                rcases List.mem_append.mp hTmem with hm | hm
                · exact absurd hm (hnotc10 'T' bigT_not_digit (by decide))
                · rcases List.mem_cons.mp hm with he | hm2
                  · exact he
                  · exact absurd hm2 (hnott 'T' bigT_not_digit (by decide))
              have hPsep : '+' = sep := by
                rcases List.mem_append.mp hPmem with hm | hm
                · exact absurd hm (hnotc10 '+' plus_not_digit (by decide))
                · rcases List.mem_cons.mp hm with he | hm2
                  · exact he
                  · exact absurd hm2 (hnott '+' plus_not_digit (by decide))
              rw [← hPsep] at hTsep
              exact absurd hTsep (by decide)
          · rw [if_neg hlen] at h
            exact absurd h (by simp)
      · rw [if_neg hplus] at h
        by_cases hminus : rest.contains '-'
        · rw [if_pos hminus] at h
          cases hsM : rsplitCharOnce '-' rest with
          | none => simp [hsM] at h
          | some q =>
            obtain ⟨tb, tz4⟩ := q
            simp only [hsM] at h
            by_cases hlen : (tz4.length == 4) = true
            · rw [if_pos hlen] at h
              obtain ⟨c10, rest2, hseq, hlen10, hc10, hrest2⟩ :=
                fromiso_naive_shape _ dt h hdt
              have hnotc10 : ∀ x : Char, x.isDigit = false → x ≠ '-' → x ∉ c10 := by
                intro x hxd hxm hmem
                rcases hc10 x hmem with hd | hd
                · rw [hxd] at hd
                  exact Bool.false_ne_true hd
                · exact hxm hd
              have hTmem : 'T' ∈ c10 ++ rest2 := by
                rw [← hseq]
                simp
              rcases hrest2 with rfl | ⟨sep, t, rfl, ht⟩
              · rw [List.append_nil] at hTmem
                exact hnotc10 'T' bigT_not_digit (by decide) hTmem
              · have hnott : ∀ x : Char, x.isDigit = false → x ≠ ':' → x ∉ t := by
                  intro x hxd hxm hmem
                  rcases ht x hmem with hd | hd
                  · rw [hxd] at hd
                    exact Bool.false_ne_true hd
                  · exact hxm hd
                have hTsep : 'T' = sep := by
                  rcases List.mem_append.mp hTmem with hm | hm
                  · exact absurd hm (hnotc10 'T' bigT_not_digit (by decide))
                  · rcases List.mem_cons.mp hm with he | hm2
                    · exact he
                    · exact absurd hm2 (hnott 'T' bigT_not_digit (by decide))
                subst hTsep
                have halign := append_sep_align 'T' dp
                  (tb ++ '-' :: tz4.take 2 ++ ':' :: tz4.drop 2) c10 t (by simpa using hseq) hTdp
                  (hnotc10 'T' bigT_not_digit (by decide))
                obtain ⟨hc10dp, htEq⟩ := halign
                have hminusT : '-' ∈ t := by
                  rw [← htEq]
                  simp
                exact absurd hminusT (hnott '-' minus_not_digit (by decide))
            · rw [if_neg hlen] at h
              exact absurd h (by simp)
        · rw [if_neg hminus] at h
          exact absurd h (by simp)

/-- Claim C3 (amended): `parse_date` either returns an instant or raises a parse error, and
every returned instant that lacks a UTC offset can only come from `fromisoformat` accepting
an offset-less ISO string, either directly or after the T-to-space fallback; the manual
space-offset path and the offset-reconstruction path always yield offset-carrying instants. -/
theorem C3_amended_offsetless_only_from_iso (s : PyStr) (dt : PyDateTime)
    (h : parse_date s = some dt) (htz : dt.tz = none) :
    fromisoformat s = some dt ∨ fromisoformat (replaceT s) = some dt := by
  unfold parse_date at h
  cases hm1 : (if hasPair ' ' '+' s || hasPair ' ' '-' s then parse_date_manual s else none) with
  | some d0 =>
    simp only [hm1] at h
    injection h with h2
    have hman : parse_date_manual s = some d0 := by
      by_cases hg : (hasPair ' ' '+' s || hasPair ' ' '-' s) = true
      · rw [if_pos hg] at hm1
        exact hm1
      · rw [if_neg hg] at hm1
        exact absurd hm1 (by simp)
    obtain ⟨o, ho⟩ := manual_aware s d0 hman
    rw [h2, htz] at ho
    exact absurd ho (by simp)
  | none =>
    simp only [hm1] at h
    cases hiso : fromisoformat s with
    | some d1 =>
      simp only [hiso] at h
      injection h with h2
      exact Or.inl (by rw [h2])
    | none =>
      simp only [hiso] at h
      cases hm3 : (if s.contains 'T' && (s.contains '+' || s.count '-' > 2)
          then parse_date_tpath s else none) with
      | some d2 =>
        simp only [hm3] at h
        injection h with h2
        have htpath : parse_date_tpath s = some d2 := by
          by_cases hg : (s.contains 'T' && (s.contains '+' || s.count '-' > 2)) = true
          · rw [if_pos hg] at hm3
            exact hm3
          · rw [if_neg hg] at hm3
            exact absurd hm3 (by simp)
        obtain ⟨o, ho⟩ := tpath_aware s d2 htpath
        rw [h2, htz] at ho
        exact absurd ho (by simp)
      | none =>
        simp only [hm3] at h
        by_cases hT : s.contains 'T' = true
        · rw [if_pos hT] at h
          exact Or.inr h
        · rw [if_neg hT] at h
          exact absurd h (by simp)

theorem run_warned_eq (hdr : List PyStr) (rows : List Row) (idx : Indices) (res : RunResult)
    (hidx : resolveIndices hdr = .ok idx) (hrun : run (hdr :: rows) = .ok res) :
    res.warned = (detectCounts idx rows).isEmpty := by
  unfold run at hrun
  simp only [hidx] at hrun
  cases hpr : processRows idx (pyMaxKey (detectLoop idx rows 0 [])) RunState.init rows with
  | error e =>
    simp only [hpr] at hrun
    exact absurd hrun (by simp)
  | ok st =>
    simp only [hpr] at hrun
    injection hrun with hrun
    rw [← hrun]
    rfl

/-- Claim C1 (amended): when the extraction pass completes, a timestamp key exists in the
aggregate map iff at least one input row of sufficient length whose selected timestamp
parses and falls inside a configured window formats to that key — regardless of whether
the row's type is one of the four metric tags or the insulin row is classified as bolus. -/
theorem C1_amended_key_iff_retained_row (idx : Indices) (it : Option Nat) (rows : List Row) (st : RunState) (k : PyStr)
    (h : processRows idx it RunState.init rows = .ok st) :
    (k ∈ st.data.map Prod.fst ↔ ∃ row ∈ rows, yieldsKeyB idx row k = true) := by
  have hm := processRows_keys idx it rows RunState.init st h k
  simpa [RunState.init] using hm

/-- Claim C5: the bolus-indicator detector scans at most the first 500 qualifying
insulin-typed rows; each counter equals the number of sampled rows whose cell at that
column position is exactly "1" or "2"; the selected column is the first position
attaining the maximal count; with no counted cell no column is selected, every
insulin dose in the aggregate stays blank, and the warning flag is set iff the
counter map is empty. -/
theorem C5_bolus_indicator_detector (idx : Indices) (rows : List Row) :
    (insSample idx rows 0).length ≤ 500
    ∧ (∀ p, lookupCount (detectCounts idx rows) p =
        (insSample idx rows 0).countP (fun r => hitB r p))
    ∧ (∀ k, pyMaxKey (detectCounts idx rows) = some k →
        ∃ i, ∃ hi : i < (detectCounts idx rows).length, (detectCounts idx rows)[i].1 = k ∧
          (∀ j, ∀ hj : j < (detectCounts idx rows).length,
            (detectCounts idx rows)[j].2 ≤ (detectCounts idx rows)[i].2) ∧
          (∀ j, ∀ hj : j < (detectCounts idx rows).length, j < i →
            (detectCounts idx rows)[j].2 < (detectCounts idx rows)[i].2))
    ∧ (detectCounts idx rows = [] →
        pyMaxKey (detectCounts idx rows) = none
        ∧ ∀ st, processRows idx none RunState.init rows = .ok st →
            ∀ p ∈ st.data, p.2.insulin_dose = ([] : PyStr))
    ∧ (∀ hdr res, resolveIndices hdr = .ok idx → run (hdr :: rows) = .ok res →
        res.warned = (detectCounts idx rows).isEmpty) := by
  refine ⟨?_, ?_, ?_, ?_, ?_⟩
  · have := insSample_length idx rows 0
    omega
  · intro p
    rw [detectCounts, detectLoop_eq_sample, lookupCount_foldl]
    simp [lookupCount]
  · intro k hk
    exact pyMaxKey_spec _ k hk
  · intro hempty
    constructor
    · rw [hempty]
      rfl
    · intro st hst
      exact processRows_blank_dose idx rows RunState.init st hst (by simp [RunState.init])
  · intro hdr res hidx hrun
    exact run_warned_eq hdr rows idx res hidx hrun

/-- Claim C4: for every valid wall-clock moment with a fixed UTC offset, the four accepted
encodings — "YYYY-MM-DD HH:MM:SS ±HHMM", "YYYY-MM-DDTHH:MM:SS±HH:MM",
"YYYY-MM-DDTHH:MM:SS±HHMM", and the space-separated "YYYY-MM-DD HH:MM:SS±HH:MM" form
(the shape the T-replaced-by-space fallback handles) — are all parsed by `parse_date`
to the identical instant. -/
theorem C4_four_encodings_same_instant (y mo d h mi s : Nat) (sgn : Bool) (oh om : Nat)
    (hy1 : 1 ≤ y) (hy2 : y ≤ 9999) (hmo1 : 1 ≤ mo) (hmo2 : mo ≤ 12)
    (hd1 : 1 ≤ d) (hd2 : d ≤ daysInMonth y mo) (hh : h ≤ 23) (hmi : mi ≤ 59) (hs : s ≤ 59)
    (hoh : oh ≤ 23) (hom : om ≤ 59) :
    parse_date (encA y mo d h mi s sgn oh om) =
      some ⟨y, mo, d, h, mi, s, some ((if sgn then 1 else -1) * (oh * 60 + om))⟩
    ∧ parse_date (encB y mo d h mi s sgn oh om) =
      some ⟨y, mo, d, h, mi, s, some ((if sgn then 1 else -1) * (oh * 60 + om))⟩
    ∧ parse_date (encC y mo d h mi s sgn oh om) =
      some ⟨y, mo, d, h, mi, s, some ((if sgn then 1 else -1) * (oh * 60 + om))⟩
    ∧ parse_date (encD y mo d h mi s sgn oh om) =
      some ⟨y, mo, d, h, mi, s, some ((if sgn then 1 else -1) * (oh * 60 + om))⟩ :=
  ⟨encA_parse_date y mo d h mi s sgn oh om hy1 hy2 hmo1 hmo2 hd1 hd2 hh hmi hs hoh hom,
   encB_parse_date y mo d h mi s sgn oh om hy1 hy2 hmo1 hmo2 hd1 hd2 hh hmi hs hoh hom,
   encC_parse_date y mo d h mi s sgn oh om hy1 hy2 hmo1 hmo2 hd1 hd2 hh hmi hs hoh hom,
   encD_parse_date y mo d h mi s sgn oh om hy1 hy2 hmo1 hmo2 hd1 hd2 hh hmi hs hoh hom⟩

/-- Claim C7 (amended): a row whose length is at most `max(type_idx, value_idx, date_idx)`
is skipped by the main pass: only the total-row counter advances; the parse-error counter
and the aggregate map are untouched.  The positions of startDate and sourceName play no
part in this guard. -/
theorem C7_amended_short_row_skipped (idx : Indices) (it : Option Nat) (st : RunState) (row : Row)
    (h : row.length ≤ maxIdx3 idx) :
    processRow idx it st row = .ok { st with total_rows := st.total_rows + 1 } := by
  unfold processRow
  rw [if_pos h]

/-- Claim C8: the pipeline is deterministic — two runs over byte-identical input content
produce identical outcomes (same output rows in the same order, same header, same
warning flag, same summary counters). -/
theorem C8_run_deterministic (a b : List (List PyStr)) (h : a = b) : run a = run b := by
  rw [h]

/-- Witness for C4 at the moment 2024-02-12 12:00:00 +01:00. -/
theorem C4_witness : parse_date (encA 2024 2 12 12 0 0 true 1 0) =
      some ⟨2024, 2, 12, 12, 0, 0, some 60⟩
    ∧ parse_date (encB 2024 2 12 12 0 0 true 1 0) = some ⟨2024, 2, 12, 12, 0, 0, some 60⟩
    ∧ parse_date (encC 2024 2 12 12 0 0 true 1 0) = some ⟨2024, 2, 12, 12, 0, 0, some 60⟩
    ∧ parse_date (encD 2024 2 12 12 0 0 true 1 0) = some ⟨2024, 2, 12, 12, 0, 0, some 60⟩ :=
  C4_four_encodings_same_instant 2024 2 12 12 0 0 true 1 0 (by decide) (by decide) (by decide) (by decide) (by decide)
    (by decide) (by decide) (by decide) (by decide) (by decide) (by decide)

/-- Claim C6: the window filter is inclusive at both boundaries and, for every aware
instant, retains it iff it falls within at least one configured interval. -/
theorem C6_window_filter_inclusive :
    (∀ dt : PyDateTime, dt.tz.isSome = true →
      (is_in_date_range dt = .ok true ↔ inAnyWindowSpec dt))
    ∧ (∀ r ∈ configuredRanges,
        is_in_date_range r.1 = .ok true ∧ is_in_date_range r.2 = .ok true) :=
  ⟨window_iff_aware_aux, window_bounds_aux⟩

/-- Witness for C6: the iff instantiated at the exact start boundary of window 2. -/
theorem C6_witness :
    is_in_date_range ⟨2025, 5, 21, 12, 0, 0, some 120⟩ = .ok true ↔
      inAnyWindowSpec ⟨2025, 5, 21, 12, 0, 0, some 120⟩ :=
  C6_window_filter_inclusive.1 ⟨2025, 5, 21, 12, 0, 0, some 120⟩ (by decide)

/-- Counterexample to C1 as stated: an in-window record whose type matches none of the
four metric tags still creates an aggregate key and an all-blank output row. -/
theorem C1_counterexample :
    run [stdHeader, [stepTag, pyStr "100", demoDate, pyStr "x", pyStr "y"]] =
      .ok { output := [outputFieldnames, [demoKey, [], [], [], [], []]],
            warned := true, total_rows := 1, parsing_errors := 0, insulin_examined := 0,
            bolus_found := 0, blood_glucose_count := 0, output_count := 1 } := by
  decide

/-- Witness for the amended C1 at a concrete run. -/
theorem C1_witness :
    demoKey ∈ demoC1State.data.map Prod.fst ↔
      ∃ row ∈ demoC1Rows, yieldsKeyB ⟨0, 1, 2, 3, 4⟩ row demoKey = true :=
  C1_amended_key_iff_retained_row ⟨0, 1, 2, 3, 4⟩ none demoC1Rows demoC1State demoKey
    (by decide)

/-- Claim C2 (code bug): a blood-glucose row long enough to pass the three-column length
guard but too short to hold the startDate cell raises an uncaught index error and aborts
the whole run, contradicting the claim that no data row is fatal. -/
theorem C2_short_blood_glucose_row_aborts :
    run [stdHeader, [glucoseTag, pyStr "100", demoDate]] = .error "IndexError" := by
  decide

/-- Counterexample to C3 as stated: an ISO string with no offset designator parses
successfully to an instant carrying no offset. -/
theorem C3_counterexample :
    parse_date (pyStr "2024-02-12T12:00:00") = some ⟨2024, 2, 12, 12, 0, 0, none⟩ := by
  decide

/-- Witness for the amended C3 at the offset-less ISO input. -/
theorem C3_witness :
    fromisoformat (pyStr "2024-02-12T12:00:00") = some ⟨2024, 2, 12, 12, 0, 0, none⟩
    ∨ fromisoformat (replaceT (pyStr "2024-02-12T12:00:00")) =
        some ⟨2024, 2, 12, 12, 0, 0, none⟩ :=
  C3_amended_offsetless_only_from_iso (pyStr "2024-02-12T12:00:00")
    ⟨2024, 2, 12, 12, 0, 0, none⟩ (by decide) rfl

/-- Witness for C5: the sample cap and the first-argmax selection at a concrete input
whose detector picks column 3. -/
theorem C5_witness :
    (insSample ⟨0, 1, 2, 3, 4⟩ demoC5Rows 0).length ≤ 500
    ∧ ∃ i, ∃ hi : i < (detectCounts ⟨0, 1, 2, 3, 4⟩ demoC5Rows).length,
        (detectCounts ⟨0, 1, 2, 3, 4⟩ demoC5Rows)[i].1 = 3 ∧
        (∀ j, ∀ hj : j < (detectCounts ⟨0, 1, 2, 3, 4⟩ demoC5Rows).length,
          (detectCounts ⟨0, 1, 2, 3, 4⟩ demoC5Rows)[j].2 ≤
            (detectCounts ⟨0, 1, 2, 3, 4⟩ demoC5Rows)[i].2) ∧
        (∀ j, ∀ hj : j < (detectCounts ⟨0, 1, 2, 3, 4⟩ demoC5Rows).length, j < i →
          (detectCounts ⟨0, 1, 2, 3, 4⟩ demoC5Rows)[j].2 <
            (detectCounts ⟨0, 1, 2, 3, 4⟩ demoC5Rows)[i].2) :=
  ⟨(C5_bolus_indicator_detector ⟨0, 1, 2, 3, 4⟩ demoC5Rows).1,
   (C5_bolus_indicator_detector ⟨0, 1, 2, 3, 4⟩ demoC5Rows).2.2.1 3 (by decide)⟩

/-- Counterexample to C7 as stated: with the standard header the largest resolved position
is sourceName at index 4, yet a heart-rate row of length 3 is processed and aggregated
rather than treated as malformed. -/
theorem C7_counterexample :
    run [stdHeader, [heartTag, pyStr "70", demoDate]] =
      .ok { output := [outputFieldnames, [demoKey, pyStr "70", [], [], [], []]],
            warned := true, total_rows := 1, parsing_errors := 0, insulin_examined := 0,
            bolus_found := 0, blood_glucose_count := 0, output_count := 1 } := by
  decide

/-- Witness for the amended C7 on a one-cell row. -/
theorem C7_witness :
    processRow ⟨0, 1, 2, 3, 4⟩ none RunState.init [pyStr "x"] =
      .ok { RunState.init with total_rows := RunState.init.total_rows + 1 } :=
  C7_amended_short_row_skipped ⟨0, 1, 2, 3, 4⟩ none RunState.init [pyStr "x"] (by decide)

/-- Witness for C8 on a concrete input. -/
theorem C8_witness : run [stdHeader] = run [stdHeader] :=
  C8_run_deterministic [stdHeader] [stdHeader] rfl

/-- Claim C9: two in-window records denoting the same absolute instant but written with
different UTC offsets are keyed under distinct formatted strings and produce two distinct
output rows. -/
theorem C9_distinct_offsets_distinct_rows :
    (⟨2025, 5, 22, 12, 0, 0, some 120⟩ : PyDateTime).instant =
      (⟨2025, 5, 22, 10, 0, 0, some 0⟩ : PyDateTime).instant
    ∧ run demoC9Input =
      .ok { output := [outputFieldnames,
              [pyStr "2025-05-22 10:00:00+0000", pyStr "72", [], [], [], []],
              [pyStr "2025-05-22 12:00:00+0200", pyStr "71", [], [], [], []]],
            warned := true, total_rows := 2, parsing_errors := 0, insulin_examined := 0,
            bolus_found := 0, blood_glucose_count := 0, output_count := 2 } :=
  ⟨by decide, by decide⟩

/-- Claim C10: in the space-before-offset encoding, an offset substring longer than four
characters is accepted with only its first four digits read: "+01007" parses as +01:00. -/
theorem C10_long_offset_suffix_accepted :
    parse_date (pyStr "2024-02-12 12:00:00 +01007") =
      some ⟨2024, 2, 12, 12, 0, 0, some 60⟩ := by
  decide
